import Mathlib

/-!
# check-env: schema validation and configuration diff

A shallow embedding of `src/utils/validator.js` (`compareEnvFiles`,
`validateWithSchema`, `validateType`) and of `src/commands/init.js`
(`inferSchemaForValue`, `generateSchema`, `generateExample`), together with
the properties of the diff, of the validation results, of the inferred schema
and of the generated examples that the specification states.

Objects are the plain JavaScript objects that `dotenv.parse`, `JSON.parse` and
`yaml.load` return: a list of own entries in `Object.keys` order, on top of
the properties every plain object inherits from `Object.prototype`.
-/

namespace CheckEnv

/-! ## Plain objects -/

/-- A plain object with string keys: its own enumerable entries, in the order
in which `Object.keys` and `Object.entries` enumerate them. -/
abbrev Obj (α : Type) := List (String × α)

/-- The property names a plain object inherits from `Object.prototype`
(`Object.getOwnPropertyNames(Object.prototype)` in Node). -/
def objectPrototypeKeys : List String :=
  ["constructor", "__defineGetter__", "__defineSetter__", "hasOwnProperty",
   "__lookupGetter__", "__lookupSetter__", "isPrototypeOf", "propertyIsEnumerable",
   "toString", "valueOf", "__proto__", "toLocaleString"]

/-- What reading a property of a configuration object can yield: a string (an
own entry), the built-in member of `Object.prototype` of that name (a function,
or the prototype object itself for `__proto__`), or `undefined`. -/
inductive JsValue where
  | undefined
  | string (s : String)
  | builtin (name : String)
  deriving DecidableEq, Repr

/-- `Object.keys(o)`. -/
def objectKeys {α : Type} (o : Obj α) : List String := o.map Prod.fst

/-- Whether `k` is an own property of `o`. -/
def hasOwn {α : Type} (k : String) (o : Obj α) : Bool := (objectKeys o).contains k

/-- The operator `k in o`: own properties and inherited ones alike. -/
def jsIn {α : Type} (k : String) (o : Obj α) : Bool :=
  hasOwn k o || objectPrototypeKeys.contains k

/-- The read `o[k]` on an object whose own values are strings: the own value
when there is one, else what the prototype chain gives. -/
def getProp (o : Obj String) (k : String) : JsValue :=
  match o.lookup k with
  | some v => JsValue.string v
  | none => if objectPrototypeKeys.contains k then JsValue.builtin k else JsValue.undefined

/-- Overwrite the entry of `k` in place, or append a new entry. -/
def upsert {α : Type} : Obj α → String → α → Obj α
  | [], k, v => [(k, v)]
  | (k', v') :: rest, k, v =>
    if k' = k then (k, v) :: rest else (k', v') :: upsert rest k v

/-- The assignment `o[k] = v` on an object created by a literal `{}`. The key
`__proto__` reaches the inherited setter and creates no own property; every
other key is written as an own property. Entries are kept in insertion order;
nothing below depends on the enumeration order of an object built this way. -/
def setProp {α : Type} (o : Obj α) (k : String) (v : α) : Obj α :=
  if k = "__proto__" then o else upsert o k v

/-! ## compareEnvFiles -/

/-- The value `{ first, second }` stored in `results.different`. -/
structure DiffPair where
  first : JsValue
  second : JsValue
  deriving DecidableEq, Repr

/-- The object `results` of `compareEnvFiles`. -/
structure DiffResult where
  onlyInFirst : Obj JsValue
  onlyInSecond : Obj JsValue
  different : Obj DiffPair
  same : Obj JsValue
  deriving DecidableEq, Repr

/-- Body of the loop over `Object.keys(env1)`. -/
def compareFirstStep (env1 env2 : Obj String) (results : DiffResult) (key : String) :
    DiffResult :=
  if !(jsIn key env2) then
    { results with onlyInFirst := setProp results.onlyInFirst key (getProp env1 key) }
  else if getProp env1 key ≠ getProp env2 key then
    { results with
      different := setProp results.different key ⟨getProp env1 key, getProp env2 key⟩ }
  else
    { results with same := setProp results.same key (getProp env1 key) }

/-- Body of the loop over `Object.keys(env2)`. -/
def compareSecondStep (env1 env2 : Obj String) (results : DiffResult) (key : String) :
    DiffResult :=
  if !(jsIn key env1) then
    { results with onlyInSecond := setProp results.onlyInSecond key (getProp env2 key) }
  else results

/-- The function `compareEnvFiles`, on the two objects `parseEnvFile` returns
for its two arguments. -/
def compareEnvFiles (env1 env2 : Obj String) : DiffResult :=
  let results : DiffResult := ⟨[], [], [], []⟩
  let results := (objectKeys env1).foldl (compareFirstStep env1 env2) results
  (objectKeys env2).foldl (compareSecondStep env1 env2) results

/-- In how many of the four maps of a diff result `k` is an own key. -/
def bucketCount (r : DiffResult) (k : String) : Nat :=
  (if hasOwn k r.onlyInFirst then 1 else 0) + (if hasOwn k r.onlyInSecond then 1 else 0)
    + (if hasOwn k r.different then 1 else 0) + (if hasOwn k r.same then 1 else 0)

/-- A loop that assigns `f k` to the key `k` for every `k` of `ks` that passes
the test `c`: the shape in which each of the four maps of a diff is built. -/
def assignAll {α : Type} (c : String → Bool) (f : String → α) (m : Obj α)
    (ks : List String) : Obj α :=
  ks.foldl (fun acc k => if c k then setProp acc k (f k) else acc) m

/-! ## Host built-ins used by the validator -/

/-- The engine services the validator calls and this development does not
implement: `regExp p` is `new RegExp(p)`, `none` when the constructor throws a
`SyntaxError` and otherwise the `test` function of the compiled pattern;
`urlParses s` tells whether `new URL(s)` succeeds. -/
structure Host where
  regExp : String → Option (String → Bool)
  urlParses : String → Bool
  /-- The empty pattern compiles (to the expression `(?:)`). -/
  emptyPattern : (regExp "").isSome = true

/-- An exception leaving `validateWithSchema`. -/
inductive JsError where
  | syntaxError (pattern : String)
  | typeError (what : String)
  deriving DecidableEq, Repr

/-- String conversion of a value, as template literals, `RegExp.prototype.test`,
`Number` and `new URL` apply it (the built-in members print as V8 prints them). -/
def jsToString : JsValue → String
  | JsValue.undefined => "undefined"
  | JsValue.string s => s
  | JsValue.builtin n =>
    if n = "__proto__" then "[object Object]"
    else if n = "constructor" then "function Object() \x7b [native code] \x7d"
    else "function " ++ n ++ "() \x7b [native code] \x7d"

/-- The method `toLowerCase`, on ASCII letters. The results are only ever
compared with fixed lower-case ASCII words; the only characters outside ASCII
whose lower-case form has an ASCII letter are U+212A (to `k`, a letter none of
the words has) and U+0130 (to `i` followed by a combining dot, which matches
no word either), so the comparison outcomes are those of the full Unicode
mapping. -/
def toLowerCase (s : String) : String := String.mk (s.toList.map Char.toLower)

/-- The characters `\s` matches and `Number` trims. -/
def isJsWhiteSpace (c : Char) : Bool :=
  let n := c.toNat
  (9 ≤ n && n ≤ 13) || n = 32 || n = 160 || n = 5760 || (8192 ≤ n && n ≤ 8202)
    || n = 8232 || n = 8233 || n = 8239 || n = 8287 || n = 12288 || n = 65279

/-- The characters `\d` matches. -/
def isDecimalDigit (c : Char) : Bool := 48 ≤ c.toNat && c.toNat ≤ 57

/-- Hexadecimal digits. -/
def isHexDigit (c : Char) : Bool :=
  isDecimalDigit c || (65 ≤ c.toNat && c.toNat ≤ 70) || (97 ≤ c.toNat && c.toNat ≤ 102)

/-- Octal digits. -/
def isOctalDigit (c : Char) : Bool := 48 ≤ c.toNat && c.toNat ≤ 55

/-- Binary digits. -/
def isBinaryDigit (c : Char) : Bool := c = '0' || c = '1'

/-- Strip leading and trailing white space. -/
def trimJs (cs : List Char) : List Char :=
  ((cs.dropWhile isJsWhiteSpace).reverse.dropWhile isJsWhiteSpace).reverse

/-- The rest of a decimal literal after its mantissa: nothing, or an exponent
part `e`, optional sign, one or more digits. -/
def exponentOrEnd : List Char → Bool
  | [] => true
  | c :: rest =>
    (c = 'e' || c = 'E') &&
      (match rest with
       | [] => false
       | s :: ds =>
         if s = '+' || s = '-' then !ds.isEmpty && ds.all isDecimalDigit
         else (s :: ds).all isDecimalDigit)

/-- The grammar `StrUnsignedDecimalLiteral`. -/
def isStrUnsignedDecimalLiteral (cs : List Char) : Bool :=
  cs = "Infinity".toList ||
    (let d1 := cs.takeWhile isDecimalDigit
     match cs.dropWhile isDecimalDigit with
     | [] => !d1.isEmpty
     | c :: r =>
       if c = '.' then
         (!d1.isEmpty || !(r.takeWhile isDecimalDigit).isEmpty)
           && exponentOrEnd (r.dropWhile isDecimalDigit)
       else !d1.isEmpty && exponentOrEnd (c :: r))

/-- The grammar `StrDecimalLiteral`: an optional sign and an unsigned literal. -/
def isStrDecimalLiteral : List Char → Bool
  | [] => false
  | c :: r =>
    if c = '+' || c = '-' then isStrUnsignedDecimalLiteral r
    else isStrUnsignedDecimalLiteral (c :: r)

/-- The grammar `NonDecimalIntegerLiteral`: `0x`, `0o` or `0b` and digits. -/
def isNonDecimalIntegerLiteral : List Char → Bool
  | z :: x :: d :: ds =>
    z = '0' &&
      (((x = 'x' || x = 'X') && (d :: ds).all isHexDigit)
        || ((x = 'o' || x = 'O') && (d :: ds).all isOctalDigit)
        || ((x = 'b' || x = 'B') && (d :: ds).all isBinaryDigit))
  | _ => false

/-- Whether `isNaN(Number(s))` holds for the string `s`: the trimmed string is
neither empty nor a numeric literal. -/
def numberIsNaN (s : String) : Bool :=
  let cs := trimJs s.toList
  !(cs.isEmpty || isStrDecimalLiteral cs || isNonDecimalIntegerLiteral cs)

/-- The pieces of a character list between its dots. -/
def splitDots : List Char → List (List Char)
  | [] => [[]]
  | c :: cs =>
    match splitDots cs with
    | [] => [[c]]
    | p :: ps => if c = '.' then [] :: p :: ps else (c :: p) :: ps

/-- The test of `^[^\s@]+@[^\s@]+\.[^\s@]+$`: no white space, exactly one `@`
with something before it, and after it a dot that is neither the first nor
the last character. -/
def matchesEmail (s : String) : Bool :=
  let cs := s.toList
  let localPart := cs.takeWhile (fun c => c ≠ '@')
  let domain := (cs.dropWhile (fun c => c ≠ '@')).drop 1
  !(cs.any isJsWhiteSpace) && cs.count '@' = 1 && !localPart.isEmpty
    && (domain.drop 1).dropLast.contains '.'

/-- The test of `^(\d{1,3}\.){3}\d{1,3}$`: four groups of one to three digits
separated by dots. -/
def matchesIpAddress (s : String) : Bool :=
  let parts := splitDots s.toList
  parts.length = 4 && parts.all (fun p => 1 ≤ p.length && p.length ≤ 3 && p.all isDecimalDigit)

deriving instance DecidableEq for Except

/-! ## validateType -/

/-- The function `validateType`. A value that is not a string has no
`toLowerCase`, so the `boolean` case throws a `TypeError` on it. -/
def validateType (h : Host) (value : JsValue) (type : String) : Except JsError Bool :=
  let t := toLowerCase type
  if t = "string" then
    match value with
    | JsValue.string _ => Except.ok true
    | _ => Except.ok false
  else if t = "number" then Except.ok (!(numberIsNaN (jsToString value)))
  else if t = "boolean" then
    match value with
    | JsValue.string s => Except.ok (["true", "false", "0", "1"].contains (toLowerCase s))
    | _ => Except.error (JsError.typeError "value.toLowerCase is not a function")
  else if t = "url" then Except.ok (h.urlParses (jsToString value))
  else if t = "email" then Except.ok (matchesEmail (jsToString value))
  else if t = "ipaddress" then Except.ok (matchesIpAddress (jsToString value))
  else Except.ok true

/-! ## validateWithSchema -/

/-- One entry of a schema document: every field is optional. -/
structure FieldSpec where
  type : Option String := none
  required : Option Bool := none
  default : Option String := none
  pattern : Option String := none
  enum : Option (List String) := none
  sensitive : Option Bool := none
  description : Option String := none
  deriving DecidableEq, Repr

/-- An entry `{ key, message }` of `results.errors`. -/
structure ValidationError where
  key : String
  message : String
  deriving DecidableEq, Repr

/-- An entry of `results.warnings`: `{ key, message }` for a default in use,
`{ keys, message }` for the variables that are not in the schema. -/
structure ValidationWarning where
  key : Option String
  keys : Option (List String)
  message : String
  deriving DecidableEq, Repr

/-- The object `results` of `validateWithSchema`. -/
structure ValidationResult where
  valid : Bool
  errors : List ValidationError
  warnings : List ValidationWarning
  deriving DecidableEq, Repr

/-- The two statements `results.valid = false; results.errors.push(...)`. -/
def pushError (results : ValidationResult) (key message : String) : ValidationResult :=
  { results with valid := false, errors := results.errors ++ [⟨key, message⟩] }

/-- The statement `results.warnings.push(w)`. -/
def pushWarning (results : ValidationResult) (w : ValidationWarning) : ValidationResult :=
  { results with warnings := results.warnings ++ [w] }

/-- Truthiness of an optional string field: present and not empty. -/
def truthyString : Option String → Option String
  | some s => if s = "" then none else some s
  | none => none

/-- The block "Type validation". -/
def checkType (h : Host) (key : String) (d : FieldSpec) (value : JsValue)
    (results : ValidationResult) : Except JsError ValidationResult :=
  match truthyString d.type with
  | none => Except.ok results
  | some t =>
    match validateType h value t with
    | Except.error e => Except.error e
    | Except.ok true => Except.ok results
    | Except.ok false =>
      Except.ok (pushError results key
        ("Variable " ++ key ++ " should be of type " ++ t ++ ", got: " ++ jsToString value))

/-- The block "Pattern validation". -/
def checkPattern (h : Host) (key : String) (d : FieldSpec) (value : JsValue)
    (results : ValidationResult) : Except JsError ValidationResult :=
  match truthyString d.pattern with
  | none => Except.ok results
  | some p =>
    match h.regExp p with
    | none => Except.error (JsError.syntaxError p)
    | some test =>
      if test (jsToString value) then Except.ok results
      else Except.ok (pushError results key
        ("Variable " ++ key ++ " does not match required pattern: " ++ p))

/-- The block "Enum validation"; an array is truthy even when empty, and
`includes` compares with strict equality. -/
def checkEnum (key : String) (d : FieldSpec) (value : JsValue)
    (results : ValidationResult) : ValidationResult :=
  match d.enum with
  | none => results
  | some allowed =>
    if (allowed.map JsValue.string).contains value then results
    else pushError results key
      ("Variable " ++ key ++ " should be one of: " ++ ", ".intercalate allowed
        ++ ", got: " ++ jsToString value)

/-- Body of the loop over `Object.entries(schema)`. -/
def validateEntry (h : Host) (envVars : Obj String) (results : ValidationResult)
    (key : String) (d : FieldSpec) : Except JsError ValidationResult :=
  if d.required = some true && !(jsIn key envVars) then
    Except.ok (pushError results key ("Required variable " ++ key ++ " is missing"))
  else if !(jsIn key envVars) then
    match d.default with
    | some dv =>
      Except.ok (pushWarning results
        ⟨some key, none, "Variable " ++ key ++ " is using default value: " ++ dv⟩)
    | none => Except.ok results
  else
    let value := getProp envVars key
    match checkType h key d value results with
    | Except.error e => Except.error e
    | Except.ok r1 =>
      match checkPattern h key d value r1 with
      | Except.error e => Except.error e
      | Except.ok r2 => Except.ok (checkEnum key d value r2)

/-- The loop over `Object.entries(schema)`; an exception ends it. -/
def validateEntries (h : Host) (envVars : Obj String) :
    List (String × FieldSpec) → ValidationResult → Except JsError ValidationResult
  | [], results => Except.ok results
  | (key, d) :: rest, results =>
    match validateEntry h envVars results key d with
    | Except.error e => Except.error e
    | Except.ok r => validateEntries h envVars rest r

/-- The block "Check for extra variables". -/
def checkExtra (envVars : Obj String) (schema : Obj FieldSpec)
    (results : ValidationResult) : ValidationResult :=
  let extraKeys := (objectKeys envVars).filter (fun key => !(jsIn key schema))
  if extraKeys.length > 0 then
    pushWarning results
      ⟨none, some extraKeys,
       "Found " ++ toString extraKeys.length ++ " variables not in schema: "
         ++ ", ".intercalate extraKeys⟩
  else results

/-- The function `validateWithSchema`, from the point where the schema
document has been read and parsed into the object `schema`. -/
def validateWithSchema (h : Host) (envVars : Obj String) (schema : Obj FieldSpec) :
    Except JsError ValidationResult :=
  match validateEntries h envVars schema ⟨true, [], []⟩ with
  | Except.error e => Except.error e
  | Except.ok results => Except.ok (checkExtra envVars schema results)

/-- The results object at the start of a run. -/
def emptyResults : ValidationResult := ⟨true, [], []⟩

/-- The results of a stretch of a run that started from `r` and by itself,
started from `emptyResults`, finds `found`. -/
def mergeResults (r found : ValidationResult) : ValidationResult :=
  ⟨r.valid && found.valid, r.errors ++ found.errors, r.warnings ++ found.warnings⟩

/-- A host for concrete evaluations: it compiles the one pattern `^[0-9]+$`,
rejects the unbalanced pattern `(`, accepts every other pattern as one that
matches everything, and parses as URLs the strings starting with a scheme
`http://` or `https://`. -/
def sampleHost : Host where
  regExp := fun p =>
    if p = "^[0-9]+$" then some (fun s => !s.toList.isEmpty && s.toList.all isDecimalDigit)
    else if p = "(" then none
    else some (fun _ => true)
  urlParses := fun s =>
    "http://".toList.isPrefixOf s.toList || "https://".toList.isPrefixOf s.toList
  emptyPattern := by decide

/-- What one schema entry adds to empty results (nothing when its checks
throw). -/
def entryFindings (h : Host) (envVars : Obj String) (e : String × FieldSpec) :
    ValidationResult :=
  match validateEntry h envVars emptyResults e.1 e.2 with
  | Except.ok f => f
  | Except.error _ => emptyResults

/-- The configuration keys the check for extra variables reports. -/
def extraKeysOf (envVars : Obj String) (schema : Obj FieldSpec) : List String :=
  (objectKeys envVars).filter (fun key => !(jsIn key schema))

/-! ## init.js: schema inference and example generation -/

/-- Whether the characters `sub` occur in the characters `s` as one contiguous
run. -/
def includesChars : List Char → List Char → Bool
  | [], sub => sub.isEmpty
  | c :: cs, sub => sub.isPrefixOf (c :: cs) || includesChars cs sub

/-- The method `includes` of strings: `s.includes(sub)`, case-sensitive. -/
def jsIncludes (s sub : String) : Bool := includesChars s.toList sub.toList

/-- The condition of the block "Guess sensitive data" of
`inferSchemaForValue`. -/
def looksSensitive (key : String) : Bool :=
  jsIncludes key "SECRET" || jsIncludes key "PASSWORD" || jsIncludes key "KEY"
    || jsIncludes key "TOKEN" || jsIncludes key "AUTH"

/-- The constant `isSensitiveLooking` of `generateExample` (the same in both
of its branches). -/
def isSensitiveLooking (key : String) : Bool :=
  jsIncludes key "SECRET" || jsIncludes key "PASSWORD" || jsIncludes key "KEY"
    || jsIncludes key "TOKEN"

/-- The condition of the block "Infer default value". -/
def namesDefault (key : String) : Bool :=
  jsIncludes key "DEFAULT" || jsIncludes key "FALLBACK"

/-- The test of `^(https?:\/\/)`: the value starts with `http://` or with
`https://`. -/
def matchesHttpPrefix (value : String) : Bool :=
  "http://".toList.isPrefixOf value.toList || "https://".toList.isPrefixOf value.toList

/-- The words the inferencer takes for booleans. -/
def inferredBooleanWords : List String := ["true", "false", "yes", "no", "0", "1"]

/-- The function `inferSchemaForValue`. -/
def inferSchemaForValue (key value : String) : FieldSpec :=
  let d : FieldSpec :=
    { required := some true, description := some ("Environment variable: " ++ key) }
  let d : FieldSpec :=
    if !(numberIsNaN value) then { d with type := some "number" }
    else if inferredBooleanWords.contains (toLowerCase value) then
      { d with type := some "boolean",
               enum := some ["true", "false", "0", "1", "yes", "no"] }
    else if matchesHttpPrefix value then { d with type := some "url" }
    else if matchesEmail value then { d with type := some "email" }
    else if matchesIpAddress value then { d with type := some "ipaddress" }
    else { d with type := some "string" }
  let d : FieldSpec :=
    if namesDefault key then { d with default := some value, required := some false }
    else d
  if looksSensitive key then { d with sensitive := some true } else d

/-- The function `generateSchema`. -/
def generateSchema (envVars : Obj String) : Obj FieldSpec :=
  envVars.foldl (fun schema e => setProp schema e.1 (inferSchemaForValue e.1 e.2)) []

/-- The mask that stands for a sensitive value. -/
def mask : String := "********"

/-- The value `generateExample` assigns to the key of one schema entry. -/
def exampleForEntry (envVars : Obj String) (key : String) (d : FieldSpec) : JsValue :=
  match truthyString d.default with
  | some dv => JsValue.string dv
  | none =>
    match d.enum with
    | some (first :: _) => JsValue.string first
    | _ =>
      if d.sensitive = some true then JsValue.string mask
      else if jsIn key envVars then
        (if isSensitiveLooking key then JsValue.string mask else getProp envVars key)
      else JsValue.string ("YOUR_" ++ key ++ "_HERE")

/-- The function `generateExample`; `schema` is `none` for the argument
`null`. -/
def generateExample (envVars : Obj String) (schema : Option (Obj FieldSpec)) :
    Obj JsValue :=
  match schema with
  | some entries =>
    entries.foldl
      (fun exampleVars e => setProp exampleVars e.1 (exampleForEntry envVars e.1 e.2)) []
  | none =>
    envVars.foldl
      (fun exampleVars e =>
        setProp exampleVars e.1
          (if isSensitiveLooking e.1 then JsValue.string mask else JsValue.string e.2)) []

/-- Put the pieces back together with dots between them. -/
def joinDots : List (List Char) → List Char
  | [] => []
  | [p] => p
  | p :: q :: r => p ++ ('.' :: joinDots (q :: r))

/-- A run of decimal digits (possibly empty). -/
def AllDigits (cs : List Char) : Prop := ∀ c ∈ cs, isDecimalDigit c = true

/-- Written from the specification: an exponent part, that is `e` or `E`, an
optional sign, and one or more digits. -/
def IsExponentPart (cs : List Char) : Prop :=
  ∃ (e : Char) (s ds : List Char), cs = e :: (s ++ ds) ∧ (e = 'e' ∨ e = 'E')
    ∧ (s = [] ∨ s = ['+'] ∨ s = ['-']) ∧ ds ≠ [] ∧ AllDigits ds

/-- Written from the specification: the standard integer, decimal or float
lexical form without its sign: digits, optionally followed by a dot and more
digits, or a dot followed by digits; then optionally an exponent part. -/
def IsUnsignedDecimalForm (cs : List Char) : Prop :=
  ∃ int frac exp : List Char, cs = int ++ (frac ++ exp) ∧ AllDigits int
    ∧ ((frac = [] ∧ int ≠ []) ∨ ∃ f, frac = '.' :: f ∧ AllDigits f ∧ (int ≠ [] ∨ f ≠ []))
    ∧ (exp = [] ∨ IsExponentPart exp)

/-- Written from the specification: the standard integer, decimal or float
lexical form, with an optional sign. -/
def IsDecimalForm (cs : List Char) : Prop :=
  ∃ sign body : List Char, cs = sign ++ body ∧ (sign = [] ∨ sign = ['+'] ∨ sign = ['-'])
    ∧ IsUnsignedDecimalForm body

/-- The word `Infinity`, with an optional sign. -/
def IsInfinityForm (cs : List Char) : Prop :=
  cs = "Infinity".toList ∨ cs = '+' :: "Infinity".toList ∨ cs = '-' :: "Infinity".toList

/-- An integer literal in base 16, 8 or 2: `0x`, `0o` or `0b` (in either case)
and one or more digits of the base. -/
def IsNonDecimalForm (cs : List Char) : Prop :=
  ∃ (x : Char) (ds : List Char), cs = '0' :: x :: ds ∧ ds ≠ []
    ∧ (((x = 'x' ∨ x = 'X') ∧ ∀ c ∈ ds, isHexDigit c = true)
      ∨ ((x = 'o' ∨ x = 'O') ∧ ∀ c ∈ ds, isOctalDigit c = true)
      ∨ ((x = 'b' ∨ x = 'B') ∧ ∀ c ∈ ds, isBinaryDigit c = true))

/-- Written from the specification, as amended: the values the number rule
accepts, those `Number` does not turn into `NaN`. Between optional white space
at both ends there is nothing at all, or the standard decimal form, or
`Infinity`, or an integer literal in base 16, 8 or 2. -/
def IsJsNumeric (v : String) : Prop :=
  ∃ ws1 core ws2 : List Char, v.toList = ws1 ++ (core ++ ws2)
    ∧ (∀ c ∈ ws1, isJsWhiteSpace c = true) ∧ (∀ c ∈ ws2, isJsWhiteSpace c = true)
    ∧ (core = [] ∨ IsDecimalForm core ∨ IsInfinityForm core ∨ IsNonDecimalForm core)

/-- Written from the specification: the lower-cased value is one of `true`,
`false`, `yes`, `no`, `0`, `1`. -/
def IsBooleanWord (v : String) : Prop :=
  toLowerCase v ∈ ["true", "false", "yes", "no", "0", "1"]

/-- Written from the specification: the value starts with `http://` or with
`https://`. -/
def HasHttpPrefix (v : String) : Prop :=
  "http://".toList <+: v.toList ∨ "https://".toList <+: v.toList

/-- Written from the specification: the shape `local@domain.tld`, three parts
that are not empty and hold neither white space nor `@`. -/
def IsEmailShape (v : String) : Prop :=
  ∃ l d t : List Char, v.toList = l ++ ('@' :: (d ++ ('.' :: t)))
    ∧ l ≠ [] ∧ d ≠ [] ∧ t ≠ []
    ∧ ∀ c ∈ l ++ (d ++ t), isJsWhiteSpace c = false ∧ c ≠ '@'

/-- One group of a dotted quad: one to three digits. -/
def IsDigitGroup (p : List Char) : Prop := 1 ≤ p.length ∧ p.length ≤ 3 ∧ AllDigits p

/-- Written from the specification: the dotted-quad shape, four groups of one
to three digits separated by dots (no range check). -/
def IsDottedQuad (v : String) : Prop :=
  ∃ a b c d : List Char, v.toList = a ++ ('.' :: (b ++ ('.' :: (c ++ ('.' :: d)))))
    ∧ IsDigitGroup a ∧ IsDigitGroup b ∧ IsDigitGroup c ∧ IsDigitGroup d

/-- Written from the specification, as amended: the example value of a schema
key. The default when one is set and not empty; else the first entry of the
enum; else the mask when the entry is sensitive; else, when the key is in the
configuration, the observed value, masked when the name of the key contains
`SECRET`, `PASSWORD`, `KEY` or `TOKEN`; else a placeholder. -/
def specExample (envVars : Obj String) (key : String) (d : FieldSpec) : String :=
  match d.default with
  | some dv =>
    if dv ≠ "" then dv
    else
      match d.enum with
      | some (first :: _) => first
      | _ =>
        if d.sensitive = some true then mask
        else
          match envVars.lookup key with
          | some v => if isSensitiveLooking key then mask else v
          | none => "YOUR_" ++ key ++ "_HERE"
  | none =>
    match d.enum with
    | some (first :: _) => first
    | _ =>
      if d.sensitive = some true then mask
      else
        match envVars.lookup key with
        | some v => if isSensitiveLooking key then mask else v
        | none => "YOUR_" ++ key ++ "_HERE"

/-! ## Objects: membership and lookup after an assignment -/

theorem hasOwn_iff {α : Type} (k : String) (o : Obj α) :
    hasOwn k o = true ↔ k ∈ objectKeys o := by
  simp [hasOwn]

theorem jsIn_proto {α : Type} (o : Obj α) : jsIn "__proto__" o = true := by
  simp [jsIn, objectPrototypeKeys]

theorem mem_objectKeys_upsert {α : Type} (o : Obj α) (k j : String) (v : α) :
    k ∈ objectKeys (upsert o j v) ↔ k = j ∨ k ∈ objectKeys o := by
  induction o with
  | nil => simp [upsert, objectKeys]
  | cons e rest ih =>
    obtain ⟨k1, v1⟩ := e
    unfold upsert
    by_cases h : k1 = j
    · subst h
      simp [objectKeys]
    · simp only [h, if_false]
      have ih2 := ih
      simp only [objectKeys, List.map_cons, List.mem_cons] at ih2 ⊢
      rw [ih2]
      tauto

theorem mem_objectKeys_setProp {α : Type} (o : Obj α) (k j : String) (v : α) :
    k ∈ objectKeys (setProp o j v) ↔ (k = j ∧ j ≠ "__proto__") ∨ k ∈ objectKeys o := by
  unfold setProp
  by_cases h : j = "__proto__"
  · simp [h]
  · simp [h, mem_objectKeys_upsert]

theorem lookup_upsert_self {α : Type} (o : Obj α) (k : String) (v : α) :
    (upsert o k v).lookup k = some v := by
  induction o with
  | nil => simp [upsert, List.lookup]
  | cons e rest ih =>
    obtain ⟨k1, v1⟩ := e
    unfold upsert
    by_cases h : k1 = k
    · simp [h, List.lookup]
    · have h2 : (k == k1) = false := by simpa using fun h3 => h h3.symm
      simp [h, List.lookup, h2, ih]

theorem lookup_upsert_ne {α : Type} (o : Obj α) (k j : String) (v : α) (hkj : k ≠ j) :
    (upsert o j v).lookup k = o.lookup k := by
  induction o with
  | nil =>
    have h2 : (k == j) = false := by simpa using hkj
    simp [upsert, List.lookup, h2]
  | cons e rest ih =>
    obtain ⟨k1, v1⟩ := e
    unfold upsert
    by_cases h : k1 = j
    · subst h
      have h2 : (k == k1) = false := by simpa using hkj
      simp [List.lookup, h2]
    · simp only [h, if_false, List.lookup]
      cases hk : (k == k1) <;> simp [ih]

theorem lookup_setProp_self {α : Type} (o : Obj α) (k : String) (v : α)
    (hk : k ≠ "__proto__") : (setProp o k v).lookup k = some v := by
  simp [setProp, hk, lookup_upsert_self]

theorem lookup_setProp_ne {α : Type} (o : Obj α) (k j : String) (v : α) (hkj : k ≠ j) :
    (setProp o j v).lookup k = o.lookup k := by
  unfold setProp
  by_cases h : j = "__proto__"
  · simp [h]
  · simp [h, lookup_upsert_ne o k j v hkj]

theorem mem_objectKeys_assignAll {α : Type} (c : String → Bool) (f : String → α)
    (ks : List String) (m : Obj α) (k : String) :
    k ∈ objectKeys (assignAll c f m ks)
      ↔ k ∈ objectKeys m ∨ (k ∈ ks ∧ c k = true ∧ k ≠ "__proto__") := by
  induction ks generalizing m with
  | nil => simp [assignAll]
  | cons j rest ih =>
    have ih2 := ih
    simp only [assignAll, List.foldl_cons] at ih2 ⊢
    rw [ih2]
    by_cases hc : c j = true
    · simp only [hc, if_true, mem_objectKeys_setProp, List.mem_cons]
      constructor
      · rintro ((⟨rfl, hp⟩ | h) | h)
        · exact Or.inr ⟨Or.inl rfl, hc, hp⟩
        · exact Or.inl h
        · exact Or.inr ⟨Or.inr h.1, h.2⟩
      · rintro (h | ⟨rfl | h, h2, h3⟩)
        · exact Or.inl (Or.inr h)
        · exact Or.inl (Or.inl ⟨rfl, h3⟩)
        · exact Or.inr ⟨h, h2, h3⟩
    · simp only [hc, List.mem_cons]
      constructor
      · rintro (h | h)
        · exact Or.inl h
        · exact Or.inr ⟨Or.inr h.1, h.2⟩
      · rintro (h | ⟨rfl | h, h2, h3⟩)
        · exact Or.inl h
        · exact absurd h2 hc
        · exact Or.inr ⟨h, h2, h3⟩

theorem lookup_assignAll_keep {α : Type} (c : String → Bool) (f : String → α)
    (ks : List String) (m : Obj α) (k : String) (hm : m.lookup k = some (f k)) :
    (assignAll c f m ks).lookup k = some (f k) := by
  induction ks generalizing m with
  | nil => simpa [assignAll] using hm
  | cons j rest ih =>
    simp only [assignAll, List.foldl_cons]
    apply ih
    by_cases hc : c j = true
    · simp only [hc, if_true]
      by_cases hkj : k = j
      · subst hkj
        unfold setProp
        by_cases hp : k = "__proto__"
        · simpa [hp] using hm
        · simp [hp, lookup_upsert_self]
      · rw [lookup_setProp_ne _ _ _ _ hkj]
        exact hm
    · simpa [hc] using hm

theorem lookup_assignAll {α : Type} (c : String → Bool) (f : String → α)
    (ks : List String) (m : Obj α) (k : String) (hk : k ∈ ks) (hc : c k = true)
    (hp : k ≠ "__proto__") : (assignAll c f m ks).lookup k = some (f k) := by
  induction ks generalizing m with
  | nil => simp at hk
  | cons j rest ih =>
    by_cases hkj : k = j
    · subst hkj
      simp only [assignAll, List.foldl_cons, hc, if_true]
      exact lookup_assignAll_keep c f rest _ k (lookup_setProp_self _ _ _ hp)
    · have hk2 : k ∈ rest := by
        rcases List.mem_cons.mp hk with h | h
        · exact absurd h hkj
        · exact h
      simp only [assignAll, List.foldl_cons]
      exact ih _ hk2

/-! ## compareEnvFiles: the four maps -/

theorem foldl_compareFirstStep (a b : Obj String) (ks : List String) (r : DiffResult) :
    ks.foldl (compareFirstStep a b) r =
      ⟨assignAll (fun k => !(jsIn k b)) (getProp a) r.onlyInFirst ks,
       r.onlyInSecond,
       assignAll (fun k => jsIn k b && decide (getProp a k ≠ getProp b k))
         (fun k => ⟨getProp a k, getProp b k⟩) r.different ks,
       assignAll (fun k => jsIn k b && decide (getProp a k = getProp b k))
         (getProp a) r.same ks⟩ := by
  induction ks generalizing r with
  | nil => simp [assignAll]
  | cons j rest ih =>
    simp only [List.foldl_cons, ih, assignAll]
    unfold compareFirstStep
    by_cases h1 : jsIn j b = true
    · by_cases h2 : getProp a j = getProp b j
      · simp [h1, h2]
      · simp [h1, h2]
    · have h3 : jsIn j b = false := by simpa using h1
      simp [h3]

theorem foldl_compareSecondStep (a b : Obj String) (ks : List String) (r : DiffResult) :
    ks.foldl (compareSecondStep a b) r =
      ⟨r.onlyInFirst,
       assignAll (fun k => !(jsIn k a)) (getProp b) r.onlyInSecond ks,
       r.different, r.same⟩ := by
  induction ks generalizing r with
  | nil => simp [assignAll]
  | cons j rest ih =>
    simp only [List.foldl_cons, ih, assignAll]
    unfold compareSecondStep
    by_cases h1 : jsIn j a = true
    · simp [h1]
    · have h3 : jsIn j a = false := by simpa using h1
      simp [h3]

/-- Each map of the diff is one conditional-assignment loop over the keys of
one of the two objects. -/
theorem compareEnvFiles_eq (a b : Obj String) :
    compareEnvFiles a b =
      ⟨assignAll (fun k => !(jsIn k b)) (getProp a) [] (objectKeys a),
       assignAll (fun k => !(jsIn k a)) (getProp b) [] (objectKeys b),
       assignAll (fun k => jsIn k b && decide (getProp a k ≠ getProp b k))
         (fun k => ⟨getProp a k, getProp b k⟩) [] (objectKeys a),
       assignAll (fun k => jsIn k b && decide (getProp a k = getProp b k))
         (getProp a) [] (objectKeys a)⟩ := by
  simp [compareEnvFiles, foldl_compareFirstStep, foldl_compareSecondStep]

theorem mem_onlyInFirst (a b : Obj String) (k : String) :
    k ∈ objectKeys (compareEnvFiles a b).onlyInFirst
      ↔ k ∈ objectKeys a ∧ jsIn k b = false := by
  rw [compareEnvFiles_eq]
  simp only [mem_objectKeys_assignAll]
  constructor
  · rintro (h | ⟨h1, h2, _⟩)
    · simp [objectKeys] at h
    · exact ⟨h1, by simpa using h2⟩
  · rintro ⟨h1, h2⟩
    refine Or.inr ⟨h1, by simpa using h2, ?_⟩
    rintro rfl
    simp [jsIn_proto] at h2

theorem mem_onlyInSecond (a b : Obj String) (k : String) :
    k ∈ objectKeys (compareEnvFiles a b).onlyInSecond
      ↔ k ∈ objectKeys b ∧ jsIn k a = false := by
  rw [compareEnvFiles_eq]
  simp only [mem_objectKeys_assignAll]
  constructor
  · rintro (h | ⟨h1, h2, _⟩)
    · simp [objectKeys] at h
    · exact ⟨h1, by simpa using h2⟩
  · rintro ⟨h1, h2⟩
    refine Or.inr ⟨h1, by simpa using h2, ?_⟩
    rintro rfl
    simp [jsIn_proto] at h2

theorem mem_different (a b : Obj String) (k : String) :
    k ∈ objectKeys (compareEnvFiles a b).different
      ↔ k ∈ objectKeys a ∧ jsIn k b = true ∧ getProp a k ≠ getProp b k
          ∧ k ≠ "__proto__" := by
  rw [compareEnvFiles_eq]
  simp only [mem_objectKeys_assignAll]
  constructor
  · rintro (h | ⟨h1, h2, h3⟩)
    · simp [objectKeys] at h
    · simp only [Bool.and_eq_true, decide_eq_true_eq] at h2
      exact ⟨h1, h2.1, h2.2, h3⟩
  · rintro ⟨h1, h2, h3, h4⟩
    exact Or.inr ⟨h1, by simp [h2, h3], h4⟩

theorem mem_same (a b : Obj String) (k : String) :
    k ∈ objectKeys (compareEnvFiles a b).same
      ↔ k ∈ objectKeys a ∧ jsIn k b = true ∧ getProp a k = getProp b k
          ∧ k ≠ "__proto__" := by
  rw [compareEnvFiles_eq]
  simp only [mem_objectKeys_assignAll]
  constructor
  · rintro (h | ⟨h1, h2, h3⟩)
    · simp [objectKeys] at h
    · simp only [Bool.and_eq_true, decide_eq_true_eq] at h2
      exact ⟨h1, h2.1, h2.2, h3⟩
  · rintro ⟨h1, h2, h3, h4⟩
    exact Or.inr ⟨h1, by simp [h2, h3], h4⟩

/-- For a key that is not a name inherited from `Object.prototype`, the
operator `in` tests own membership. -/
theorem jsIn_eq_hasOwn_of_not_inherited {α : Type} (o : Obj α) (k : String)
    (hk : k ∉ objectPrototypeKeys) : jsIn k o = hasOwn k o := by
  have h : objectPrototypeKeys.contains k = false := by simpa using hk
  unfold jsIn
  rw [h, Bool.or_false]

theorem getProp_of_lookup (o : Obj String) (k v : String) (h : o.lookup k = some v) :
    getProp o k = JsValue.string v := by
  simp [getProp, h]

theorem lookup_isSome_of_mem {α : Type} (o : Obj α) (k : String) (h : k ∈ objectKeys o) :
    ∃ v, o.lookup k = some v := by
  induction o with
  | nil => simp [objectKeys] at h
  | cons e rest ih =>
    obtain ⟨k1, v1⟩ := e
    by_cases hk : k = k1
    · subst hk
      exact ⟨v1, by simp [List.lookup]⟩
    · have h2 : (k == k1) = false := by simpa using hk
      have h3 : k ∈ objectKeys rest := by
        simp only [objectKeys, List.map_cons, List.mem_cons] at h
        rcases h with h | h
        · exact absurd h hk
        · exact h
      obtain ⟨v, hv⟩ := ih h3
      exact ⟨v, by simp [List.lookup, h2, hv]⟩

theorem mem_objectKeys_of_lookup {α : Type} (o : Obj α) (k : String) (v : α)
    (h : o.lookup k = some v) : k ∈ objectKeys o := by
  induction o with
  | nil => simp [List.lookup] at h
  | cons e rest ih =>
    obtain ⟨k1, v1⟩ := e
    simp only [objectKeys, List.map_cons, List.mem_cons]
    by_cases hk : k = k1
    · exact Or.inl hk
    · have h2 : (k == k1) = false := by simpa using hk
      simp only [List.lookup, h2] at h
      exact Or.inr (ih h)

theorem not_mem_objectKeys_of_lookup {α : Type} (o : Obj α) (k : String)
    (h : o.lookup k = none) : k ∉ objectKeys o := by
  intro hm
  obtain ⟨v, hv⟩ := lookup_isSome_of_mem o k hm
  rw [hv] at h
  exact Option.noConfusion h

theorem hasOwn_eq_false_of_lookup {α : Type} (o : Obj α) (k : String)
    (h : o.lookup k = none) : hasOwn k o = false := by
  have h2 := not_mem_objectKeys_of_lookup o k h
  cases hh : hasOwn k o with
  | false => rfl
  | true => exact absurd ((hasOwn_iff k o).mp hh) h2

theorem not_proto_of_not_inherited (k : String) (hk : k ∉ objectPrototypeKeys) :
    k ≠ "__proto__" := by
  rintro rfl
  exact hk (by decide)

/-- Away from the names inherited from `Object.prototype` the four maps
partition the keys of the two objects: a key of either object is an own key of
exactly one map, any other key of none. -/
theorem compareEnvFiles_partition (a b : Obj String) (k : String)
    (hk : k ∉ objectPrototypeKeys) :
    bucketCount (compareEnvFiles a b) k
      = if k ∈ objectKeys a ∨ k ∈ objectKeys b then 1 else 0 := by
  have hp := not_proto_of_not_inherited k hk
  have e1 : hasOwn k (compareEnvFiles a b).onlyInFirst
      = decide (k ∈ objectKeys a ∧ k ∉ objectKeys b) := by
    rw [Bool.eq_iff_iff, hasOwn_iff, mem_onlyInFirst, jsIn_eq_hasOwn_of_not_inherited b k hk]
    simp [← hasOwn_iff]
  have e2 : hasOwn k (compareEnvFiles a b).onlyInSecond
      = decide (k ∈ objectKeys b ∧ k ∉ objectKeys a) := by
    rw [Bool.eq_iff_iff, hasOwn_iff, mem_onlyInSecond, jsIn_eq_hasOwn_of_not_inherited a k hk]
    simp [← hasOwn_iff]
  have e3 : hasOwn k (compareEnvFiles a b).different
      = decide (k ∈ objectKeys a ∧ k ∈ objectKeys b ∧ getProp a k ≠ getProp b k) := by
    rw [Bool.eq_iff_iff, hasOwn_iff, mem_different, jsIn_eq_hasOwn_of_not_inherited b k hk]
    simp [hasOwn_iff, hp]
  have e4 : hasOwn k (compareEnvFiles a b).same
      = decide (k ∈ objectKeys a ∧ k ∈ objectKeys b ∧ getProp a k = getProp b k) := by
    rw [Bool.eq_iff_iff, hasOwn_iff, mem_same, jsIn_eq_hasOwn_of_not_inherited b k hk]
    simp [hasOwn_iff, hp]
  unfold bucketCount
  rw [e1, e2, e3, e4]
  by_cases ha : k ∈ objectKeys a <;> by_cases hb : k ∈ objectKeys b
    <;> by_cases he : getProp a k = getProp b k <;> simp [ha, hb, he]

/-- No key is ever an own key of two of the four maps, and a key of neither
object is in none of them, whatever the keys are. -/
theorem bucketCount_le_one (a b : Obj String) (k : String) :
    bucketCount (compareEnvFiles a b) k ≤ 1
      ∧ (k ∉ objectKeys a → k ∉ objectKeys b → bucketCount (compareEnvFiles a b) k = 0) := by
  have e1 : hasOwn k (compareEnvFiles a b).onlyInFirst
      = decide (k ∈ objectKeys a ∧ jsIn k b = false) := by
    rw [Bool.eq_iff_iff, hasOwn_iff, mem_onlyInFirst]
    simp
  have e2 : hasOwn k (compareEnvFiles a b).onlyInSecond
      = decide (k ∈ objectKeys b ∧ jsIn k a = false) := by
    rw [Bool.eq_iff_iff, hasOwn_iff, mem_onlyInSecond]
    simp
  have e3 : hasOwn k (compareEnvFiles a b).different
      = decide (k ∈ objectKeys a ∧ jsIn k b = true ∧ getProp a k ≠ getProp b k
          ∧ k ≠ "__proto__") := by
    rw [Bool.eq_iff_iff, hasOwn_iff, mem_different]
    simp
  have e4 : hasOwn k (compareEnvFiles a b).same
      = decide (k ∈ objectKeys a ∧ jsIn k b = true ∧ getProp a k = getProp b k
          ∧ k ≠ "__proto__") := by
    rw [Bool.eq_iff_iff, hasOwn_iff, mem_same]
    simp
  have j1 : k ∈ objectKeys a → jsIn k a = true := fun h => by
    simp [jsIn, (hasOwn_iff k a).mpr h]
  have j2 : k ∈ objectKeys b → jsIn k b = true := fun h => by
    simp [jsIn, (hasOwn_iff k b).mpr h]
  unfold bucketCount
  rw [e1, e2, e3, e4]
  by_cases ha : k ∈ objectKeys a <;> by_cases hb : k ∈ objectKeys b
    <;> by_cases he : getProp a k = getProp b k <;> by_cases hp : k = "__proto__"
    <;> cases hja : jsIn k a <;> cases hjb : jsIn k b
    <;> simp_all

/-- Away from the names inherited from `Object.prototype`, each map holds the
values the specification gives it. -/
theorem compareEnvFiles_values (a b : Obj String) (k : String)
    (hk : k ∉ objectPrototypeKeys) :
    (∀ va, a.lookup k = some va → b.lookup k = none →
        (compareEnvFiles a b).onlyInFirst.lookup k = some (JsValue.string va))
    ∧ (∀ vb, a.lookup k = none → b.lookup k = some vb →
        (compareEnvFiles a b).onlyInSecond.lookup k = some (JsValue.string vb))
    ∧ (∀ v, a.lookup k = some v → b.lookup k = some v →
        (compareEnvFiles a b).same.lookup k = some (JsValue.string v))
    ∧ (∀ va vb, a.lookup k = some va → b.lookup k = some vb → va ≠ vb →
        (compareEnvFiles a b).different.lookup k
          = some ⟨JsValue.string va, JsValue.string vb⟩) := by
  have hp := not_proto_of_not_inherited k hk
  rw [compareEnvFiles_eq]
  refine ⟨?_, ?_, ?_, ?_⟩
  · intro va h1 h2
    have h3 : jsIn k b = false := by
      rw [jsIn_eq_hasOwn_of_not_inherited b k hk]
      exact hasOwn_eq_false_of_lookup b k h2
    have h4 := lookup_assignAll (fun k => !(jsIn k b)) (getProp a) (objectKeys a) [] k
      (mem_objectKeys_of_lookup a k va h1) (by simp [h3]) hp
    rw [getProp_of_lookup a k va h1] at h4
    exact h4
  · intro vb h1 h2
    have h3 : jsIn k a = false := by
      rw [jsIn_eq_hasOwn_of_not_inherited a k hk]
      exact hasOwn_eq_false_of_lookup a k h1
    have h4 := lookup_assignAll (fun k => !(jsIn k a)) (getProp b) (objectKeys b) [] k
      (mem_objectKeys_of_lookup b k vb h2) (by simp [h3]) hp
    rw [getProp_of_lookup b k vb h2] at h4
    exact h4
  · intro v h1 h2
    have h3 : jsIn k b = true := by
      simp [jsIn, (hasOwn_iff k b).mpr (mem_objectKeys_of_lookup b k v h2)]
    have h4 := lookup_assignAll
      (fun k => jsIn k b && decide (getProp a k = getProp b k)) (getProp a) (objectKeys a) [] k
      (mem_objectKeys_of_lookup a k v h1)
      (by simp [h3, getProp_of_lookup a k v h1, getProp_of_lookup b k v h2]) hp
    rw [getProp_of_lookup a k v h1] at h4
    exact h4
  · intro va vb h1 h2 hne
    have h3 : jsIn k b = true := by
      simp [jsIn, (hasOwn_iff k b).mpr (mem_objectKeys_of_lookup b k vb h2)]
    have h4 := lookup_assignAll
      (fun k => jsIn k b && decide (getProp a k ≠ getProp b k))
      (fun k => (⟨getProp a k, getProp b k⟩ : DiffPair)) (objectKeys a) [] k
      (mem_objectKeys_of_lookup a k va h1)
      (by simp [h3, getProp_of_lookup a k va h1, getProp_of_lookup b k vb h2, hne]) hp
    simp only [getProp_of_lookup a k va h1, getProp_of_lookup b k vb h2] at h4
    exact h4

/-! ## compareEnvFiles: the claims -/

/-- C1, at the input where the code departs from it: the key `toString` occurs
in the second configuration set, and it is an own key of none of the four maps
of the diff, because `"toString" in env1` holds for every plain object. -/
theorem compareEnvFiles_inherited_key_in_no_map :
    "toString" ∈ objectKeys ([("toString", "x")] : Obj String)
      ∧ bucketCount (compareEnvFiles [] [("toString", "x")]) "toString" = 0 := by
  decide

/-- C2, at the input where the code departs from it: the key `toString` is
only in the first configuration set, yet `onlyInFirst` stays empty and the key
is filed under `different`, paired with the inherited built-in. -/
theorem compareEnvFiles_inherited_key_filed_as_different :
    compareEnvFiles [("toString", "x")] []
      = ⟨[], [], [("toString", ⟨JsValue.string "x", JsValue.builtin "toString"⟩)], []⟩ := by
  decide

/-- C3: swapping the two arguments swaps `onlyInFirst` and `onlyInSecond`; the
two maps are equal entry for entry. -/
theorem compareEnvFiles_swap (a b : Obj String) :
    (compareEnvFiles a b).onlyInFirst = (compareEnvFiles b a).onlyInSecond
      ∧ (compareEnvFiles a b).onlyInSecond = (compareEnvFiles b a).onlyInFirst := by
  rw [compareEnvFiles_eq a b, compareEnvFiles_eq b a]
  exact ⟨rfl, rfl⟩

/-! ## validateWithSchema: what one schema entry adds to the results -/

theorem mergeResults_empty (r : ValidationResult) : mergeResults r emptyResults = r := by
  cases r
  simp [mergeResults, emptyResults]

theorem empty_mergeResults (r : ValidationResult) : mergeResults emptyResults r = r := by
  cases r
  simp [mergeResults, emptyResults]

theorem mergeResults_assoc (r s t : ValidationResult) :
    mergeResults (mergeResults r s) t = mergeResults r (mergeResults s t) := by
  simp [mergeResults, Bool.and_assoc]

theorem pushError_eq_merge (r : ValidationResult) (key message : String) :
    pushError r key message = mergeResults r (pushError emptyResults key message) := by
  simp [pushError, mergeResults, emptyResults]

theorem pushWarning_eq_merge (r : ValidationResult) (w : ValidationWarning) :
    pushWarning r w = mergeResults r (pushWarning emptyResults w) := by
  simp [pushWarning, mergeResults, emptyResults]

theorem checkType_merge (h : Host) (key : String) (d : FieldSpec) (value : JsValue)
    (r : ValidationResult) :
    checkType h key d value r =
      match checkType h key d value emptyResults with
      | Except.error e => Except.error e
      | Except.ok found => Except.ok (mergeResults r found) := by
  unfold checkType
  cases ht : truthyString d.type with
  | none => simp [mergeResults_empty]
  | some t =>
    simp only
    cases hv : validateType h value t with
    | error e => rfl
    | ok b =>
      cases b with
      | true => simp [mergeResults_empty]
      | false => simp only; rw [pushError_eq_merge]

theorem checkPattern_merge (h : Host) (key : String) (d : FieldSpec) (value : JsValue)
    (r : ValidationResult) :
    checkPattern h key d value r =
      match checkPattern h key d value emptyResults with
      | Except.error e => Except.error e
      | Except.ok found => Except.ok (mergeResults r found) := by
  unfold checkPattern
  cases hp : truthyString d.pattern with
  | none => simp [mergeResults_empty]
  | some p =>
    simp only
    cases hr : h.regExp p with
    | none => rfl
    | some test =>
      by_cases ht : test (jsToString value) = true
      · simp [ht, mergeResults_empty]
      · simp only [ht, if_false, Bool.false_eq_true]
        rw [pushError_eq_merge]

theorem checkEnum_merge (key : String) (d : FieldSpec) (value : JsValue)
    (r : ValidationResult) :
    checkEnum key d value r = mergeResults r (checkEnum key d value emptyResults) := by
  unfold checkEnum
  cases he : d.enum with
  | none => simp [mergeResults_empty]
  | some allowed =>
    by_cases hc : (allowed.map JsValue.string).contains value = true
    · simp only [hc, if_true, mergeResults_empty]
    · simp only [hc, if_false, Bool.false_eq_true]
      rw [pushError_eq_merge]

/-- What an entry adds to the results does not depend on the results so far:
the step from `r` is the step from the empty results, merged into `r`. -/
theorem validateEntry_merge (h : Host) (envVars : Obj String) (r : ValidationResult)
    (key : String) (d : FieldSpec) :
    validateEntry h envVars r key d =
      match validateEntry h envVars emptyResults key d with
      | Except.error e => Except.error e
      | Except.ok found => Except.ok (mergeResults r found) := by
  unfold validateEntry
  by_cases h1 : (d.required = some true && !(jsIn key envVars)) = true
  · simp only [h1, if_true]
    rw [pushError_eq_merge]
  · simp only [h1, if_false, Bool.false_eq_true]
    by_cases h2 : (!(jsIn key envVars)) = true
    · simp only [h2, if_true]
      cases d.default with
      | none => simp [mergeResults_empty]
      | some dv => simp only; rw [pushWarning_eq_merge]
    · simp only [h2, if_false, Bool.false_eq_true]
      rw [checkType_merge h key d (getProp envVars key) r]
      cases checkType h key d (getProp envVars key) emptyResults with
      | error e => simp
      | ok f1 =>
        simp only
        rw [checkPattern_merge h key d (getProp envVars key) (mergeResults r f1),
          checkPattern_merge h key d (getProp envVars key) f1]
        cases checkPattern h key d (getProp envVars key) emptyResults with
        | error e => simp
        | ok f2 =>
          simp only
          rw [checkEnum_merge key d (getProp envVars key) (mergeResults (mergeResults r f1) f2),
            checkEnum_merge key d (getProp envVars key) (mergeResults f1 f2)]
          simp [mergeResults_assoc]

/-- The loop from `r` is the loop from the empty results, merged into `r`. -/
theorem validateEntries_merge (h : Host) (envVars : Obj String)
    (entries : List (String × FieldSpec)) (r : ValidationResult) :
    validateEntries h envVars entries r =
      match validateEntries h envVars entries emptyResults with
      | Except.error e => Except.error e
      | Except.ok found => Except.ok (mergeResults r found) := by
  induction entries generalizing r with
  | nil => simp [validateEntries, mergeResults_empty]
  | cons e rest ih =>
    obtain ⟨key, d⟩ := e
    simp only [validateEntries]
    rw [validateEntry_merge h envVars r key d]
    cases validateEntry h envVars emptyResults key d with
    | error e => simp
    | ok f1 =>
      simp only
      rw [ih (mergeResults r f1), ih f1]
      cases validateEntries h envVars rest emptyResults with
      | error e => simp
      | ok f2 => simp [mergeResults_assoc]

/-- The loop over a schema whose first entry is `(key, d)`: the findings of
that entry followed by the findings of the remaining entries. -/
theorem validateEntries_cons (h : Host) (envVars : Obj String) (key : String)
    (d : FieldSpec) (rest : List (String × FieldSpec)) :
    validateEntries h envVars ((key, d) :: rest) emptyResults =
      match validateEntry h envVars emptyResults key d with
      | Except.error e => Except.error e
      | Except.ok f1 =>
        match validateEntries h envVars rest emptyResults with
        | Except.error e => Except.error e
        | Except.ok f2 => Except.ok (mergeResults f1 f2) := by
  simp only [validateEntries]
  cases validateEntry h envVars emptyResults key d with
  | error e => simp
  | ok f1 =>
    simp only
    rw [validateEntries_merge h envVars rest f1]

theorem checkType_findings (h : Host) (key : String) (d : FieldSpec) (value : JsValue)
    (f : ValidationResult) (hf : checkType h key d value emptyResults = Except.ok f) :
    f = emptyResults ∨ ∃ m, f = pushError emptyResults key m := by
  unfold checkType at hf
  cases ht : truthyString d.type with
  | none =>
    simp only [ht] at hf
    exact Or.inl (Except.ok.inj hf).symm
  | some t =>
    simp only [ht] at hf
    cases hv : validateType h value t with
    | error e => simp [hv] at hf
    | ok b =>
      cases b with
      | true =>
        simp only [hv] at hf
        exact Or.inl (Except.ok.inj hf).symm
      | false =>
        simp only [hv] at hf
        exact Or.inr ⟨_, (Except.ok.inj hf).symm⟩

theorem checkPattern_findings (h : Host) (key : String) (d : FieldSpec) (value : JsValue)
    (f : ValidationResult) (hf : checkPattern h key d value emptyResults = Except.ok f) :
    f = emptyResults ∨ ∃ m, f = pushError emptyResults key m := by
  unfold checkPattern at hf
  cases hp : truthyString d.pattern with
  | none =>
    simp only [hp] at hf
    exact Or.inl (Except.ok.inj hf).symm
  | some p =>
    simp only [hp] at hf
    cases hr : h.regExp p with
    | none => simp [hr] at hf
    | some test =>
      simp only [hr] at hf
      by_cases ht : test (jsToString value) = true
      · simp only [ht, if_true] at hf
        exact Or.inl (Except.ok.inj hf).symm
      · simp only [ht, if_false, Bool.false_eq_true] at hf
        exact Or.inr ⟨_, (Except.ok.inj hf).symm⟩

theorem checkEnum_findings (key : String) (d : FieldSpec) (value : JsValue) :
    checkEnum key d value emptyResults = emptyResults
      ∨ ∃ m, checkEnum key d value emptyResults = pushError emptyResults key m := by
  unfold checkEnum
  cases he : d.enum with
  | none => exact Or.inl rfl
  | some allowed =>
    by_cases hc : (allowed.map JsValue.string).contains value = true
    · simp only [hc, if_true]
      exact Or.inl trivial
    · simp only [hc, if_false, Bool.false_eq_true]
      exact Or.inr ⟨_, rfl⟩

/-- A required entry whose key the operator `in` does not find in the
configuration adds the one error "Required variable ... is missing" and
nothing else. -/
theorem validateEntry_required_missing (h : Host) (envVars : Obj String)
    (r : ValidationResult) (key : String) (d : FieldSpec)
    (hreq : d.required = some true) (hin : jsIn key envVars = false) :
    validateEntry h envVars r key d
      = Except.ok (pushError r key ("Required variable " ++ key ++ " is missing")) := by
  simp [validateEntry, hreq, hin]

/-- An entry that is not required and whose key the operator `in` does not
find in the configuration adds one warning naming the default when there is a
default, and nothing at all otherwise. -/
theorem validateEntry_optional_missing (h : Host) (envVars : Obj String)
    (r : ValidationResult) (key : String) (d : FieldSpec)
    (hreq : d.required ≠ some true) (hin : jsIn key envVars = false) :
    validateEntry h envVars r key d
      = Except.ok (match d.default with
          | some dv => pushWarning r
              ⟨some key, none, "Variable " ++ key ++ " is using default value: " ++ dv⟩
          | none => r) := by
  unfold validateEntry
  have hd : decide (d.required = some true) = false := by simpa using hreq
  simp only [hd, hin, Bool.not_false, Bool.false_and, Bool.false_eq_true, if_false, if_true]
  cases d.default <;> rfl

/-- An entry whose key the operator `in` finds in the configuration runs the
three checks one after the other on the value read. -/
theorem validateEntry_present (h : Host) (envVars : Obj String)
    (r : ValidationResult) (key : String) (d : FieldSpec)
    (hin : jsIn key envVars = true) :
    validateEntry h envVars r key d
      = match checkType h key d (getProp envVars key) r with
        | Except.error e => Except.error e
        | Except.ok r1 =>
          match checkPattern h key d (getProp envVars key) r1 with
          | Except.error e => Except.error e
          | Except.ok r2 => Except.ok (checkEnum key d (getProp envVars key) r2) := by
  simp [validateEntry, hin]

/-- The findings of one entry: at most three errors, all under the key of the
entry; warnings under that key only; and `valid` tells whether there is an
error. -/
theorem validateEntry_findings (h : Host) (envVars : Obj String) (key : String)
    (d : FieldSpec) (f : ValidationResult)
    (hf : validateEntry h envVars emptyResults key d = Except.ok f) :
    (∀ e ∈ f.errors, e.key = key) ∧ f.errors.length ≤ 3
      ∧ (∀ w ∈ f.warnings, w.key = some key ∧ w.keys = none)
      ∧ (f.valid = true ↔ f.errors = []) := by
  cases hin : jsIn key envVars with
  | false =>
    by_cases hreq : d.required = some true
    · rw [validateEntry_required_missing h envVars _ key d hreq hin] at hf
      have hf2 := (Except.ok.inj hf).symm
      subst hf2
      simp [pushError, emptyResults]
    · rw [validateEntry_optional_missing h envVars _ key d hreq hin] at hf
      have hf2 := (Except.ok.inj hf).symm
      subst hf2
      cases d.default <;> simp [pushWarning, emptyResults]
  | true =>
    rw [validateEntry_present h envVars _ key d hin] at hf
    cases h1 : checkType h key d (getProp envVars key) emptyResults with
    | error e => simp [h1] at hf
    | ok f1 =>
      simp only [h1] at hf
      rw [checkPattern_merge] at hf
      cases h2 : checkPattern h key d (getProp envVars key) emptyResults with
      | error e => simp [h2] at hf
      | ok f2 =>
        simp only [h2] at hf
        rw [checkEnum_merge] at hf
        have hf2 := (Except.ok.inj hf).symm
        subst hf2
        rcases checkType_findings h key d _ f1 h1 with e1 | ⟨m1, e1⟩
          <;> rcases checkPattern_findings h key d _ f2 h2 with e2 | ⟨m2, e2⟩
          <;> rcases checkEnum_findings key d (getProp envVars key) with e3 | ⟨m3, e3⟩
          <;> subst e1 <;> subst e2 <;> rw [e3]
          <;> simp [mergeResults, pushError, emptyResults]

/-! ## validateWithSchema: the whole run -/

theorem checkExtra_errors (envVars : Obj String) (schema : Obj FieldSpec)
    (r : ValidationResult) :
    (checkExtra envVars schema r).errors = r.errors
      ∧ (checkExtra envVars schema r).valid = r.valid := by
  unfold checkExtra
  simp only
  split <;> simp [pushWarning]

/-- A run that returns is the loop over the schema, from the empty results,
followed by the check for extra variables. -/
theorem validateWithSchema_ok (h : Host) (envVars : Obj String) (schema : Obj FieldSpec)
    (r : ValidationResult) (hr : validateWithSchema h envVars schema = Except.ok r) :
    ∃ f, validateEntries h envVars schema emptyResults = Except.ok f
      ∧ r = checkExtra envVars schema f := by
  unfold validateWithSchema at hr
  cases hl : validateEntries h envVars schema ⟨true, [], []⟩ with
  | error e => simp [hl] at hr
  | ok f =>
    simp only [hl] at hr
    exact ⟨f, hl, (Except.ok.inj hr).symm⟩

theorem validateEntries_valid_iff (h : Host) (envVars : Obj String)
    (entries : List (String × FieldSpec)) (f : ValidationResult)
    (hf : validateEntries h envVars entries emptyResults = Except.ok f) :
    f.valid = true ↔ f.errors = [] := by
  induction entries generalizing f with
  | nil =>
    simp only [validateEntries] at hf
    have hf2 := (Except.ok.inj hf).symm
    subst hf2
    simp [emptyResults]
  | cons e rest ih =>
    obtain ⟨key, d⟩ := e
    rw [validateEntries_cons] at hf
    cases h1 : validateEntry h envVars emptyResults key d with
    | error e => simp [h1] at hf
    | ok f1 =>
      simp only [h1] at hf
      cases h2 : validateEntries h envVars rest emptyResults with
      | error e => simp [h2] at hf
      | ok f2 =>
        simp only [h2] at hf
        have hf2 := (Except.ok.inj hf).symm
        subst hf2
        have i1 := (validateEntry_findings h envVars key d f1 h1).2.2.2
        have i2 := ih f2 h2
        simp [mergeResults, i1, i2]

/-- Every error of the loop is an error of the findings of some entry of the
schema, filed under the key of that entry; and likewise every warning. -/
theorem validateEntries_provenance (h : Host) (envVars : Obj String)
    (entries : List (String × FieldSpec)) (f : ValidationResult)
    (hf : validateEntries h envVars entries emptyResults = Except.ok f) :
    (∀ e ∈ f.errors, ∃ d f1, (e.key, d) ∈ entries
        ∧ validateEntry h envVars emptyResults e.key d = Except.ok f1 ∧ e ∈ f1.errors)
      ∧ (∀ w ∈ f.warnings, w.keys = none ∧ ∃ k d f1, w.key = some k ∧ (k, d) ∈ entries
        ∧ validateEntry h envVars emptyResults k d = Except.ok f1 ∧ w ∈ f1.warnings) := by
  induction entries generalizing f with
  | nil =>
    simp only [validateEntries] at hf
    have hf2 := (Except.ok.inj hf).symm
    subst hf2
    simp [emptyResults]
  | cons e rest ih =>
    obtain ⟨key, d⟩ := e
    rw [validateEntries_cons] at hf
    cases h1 : validateEntry h envVars emptyResults key d with
    | error e => simp [h1] at hf
    | ok f1 =>
      simp only [h1] at hf
      cases h2 : validateEntries h envVars rest emptyResults with
      | error e => simp [h2] at hf
      | ok f2 =>
        simp only [h2] at hf
        have hf2 := (Except.ok.inj hf).symm
        subst hf2
        obtain ⟨k1, _, k3, _⟩ := validateEntry_findings h envVars key d f1 h1
        obtain ⟨i1, i2⟩ := ih f2 h2
        constructor
        · intro e he
          simp only [mergeResults, List.mem_append] at he
          rcases he with he | he
          · have hk := k1 e he
            exact ⟨d, f1, by simp [hk], by rw [hk]; exact h1, he⟩
          · obtain ⟨d2, g, m1, m2, m3⟩ := i1 e he
            exact ⟨d2, g, List.mem_cons_of_mem _ m1, m2, m3⟩
        · intro w hw
          simp only [mergeResults, List.mem_append] at hw
          rcases hw with hw | hw
          · exact ⟨(k3 w hw).2, key, d, f1, (k3 w hw).1, by simp, h1, hw⟩
          · obtain ⟨n0, k, d2, g, m0, m1, m2, m3⟩ := i2 w hw
            exact ⟨n0, k, d2, g, m0, List.mem_cons_of_mem _ m1, m2, m3⟩

/-! ## validateWithSchema: when the run returns, and what each key gets -/

theorem truthyString_some (o : Option String) (p : String) (h : truthyString o = some p) :
    o = some p ∧ p ≠ "" := by
  cases o with
  | none => simp [truthyString] at h
  | some q =>
    unfold truthyString at h
    by_cases hq : q = ""
    · simp [hq] at h
    · simp only [hq, if_false] at h
      have h2 := Option.some.inj h
      subst h2
      exact ⟨rfl, hq⟩

theorem validateType_string_ok (h : Host) (s t : String) :
    ∃ b, validateType h (JsValue.string s) t = Except.ok b := by
  unfold validateType
  simp only
  split_ifs <;> exact ⟨_, rfl⟩

theorem checkType_string_ok (h : Host) (key : String) (d : FieldSpec) (s : String)
    (r : ValidationResult) : ∃ f, checkType h key d (JsValue.string s) r = Except.ok f := by
  unfold checkType
  cases ht : truthyString d.type with
  | none => exact ⟨_, rfl⟩
  | some t =>
    obtain ⟨b, hb⟩ := validateType_string_ok h s t
    simp only [hb]
    cases b <;> exact ⟨_, rfl⟩

theorem checkPattern_ok (h : Host) (key : String) (d : FieldSpec) (value : JsValue)
    (r : ValidationResult)
    (hp : ∀ p, d.pattern = some p → (h.regExp p).isSome = true) :
    ∃ f, checkPattern h key d value r = Except.ok f := by
  unfold checkPattern
  cases ht : truthyString d.pattern with
  | none => exact ⟨_, rfl⟩
  | some p =>
    have h1 := hp p (truthyString_some _ _ ht).1
    cases hr : h.regExp p with
    | none => simp [hr] at h1
    | some test =>
      simp only [hr]
      split_ifs <;> exact ⟨_, rfl⟩

/-- An entry whose key is not a name inherited from `Object.prototype` and
whose pattern, if any, compiles never throws. -/
theorem validateEntry_returns (h : Host) (envVars : Obj String) (r : ValidationResult)
    (key : String) (d : FieldSpec) (hk : key ∉ objectPrototypeKeys)
    (hp : ∀ p, d.pattern = some p → (h.regExp p).isSome = true) :
    ∃ f, validateEntry h envVars r key d = Except.ok f := by
  cases hin : jsIn key envVars with
  | false =>
    by_cases hreq : d.required = some true
    · exact ⟨_, validateEntry_required_missing h envVars r key d hreq hin⟩
    · exact ⟨_, validateEntry_optional_missing h envVars r key d hreq hin⟩
  | true =>
    rw [validateEntry_present h envVars r key d hin]
    rw [jsIn_eq_hasOwn_of_not_inherited envVars key hk, hasOwn_iff] at hin
    obtain ⟨v, hv⟩ := lookup_isSome_of_mem envVars key hin
    rw [getProp_of_lookup envVars key v hv]
    obtain ⟨f1, h1⟩ := checkType_string_ok h key d v r
    obtain ⟨f2, h2⟩ := checkPattern_ok h key d (JsValue.string v) f1 hp
    simp only [h1, h2]
    exact ⟨_, rfl⟩

theorem validateEntries_returns (h : Host) (envVars : Obj String)
    (entries : List (String × FieldSpec)) (r : ValidationResult)
    (hk : ∀ e ∈ entries, e.1 ∉ objectPrototypeKeys)
    (hp : ∀ e ∈ entries, ∀ p, e.2.pattern = some p → (h.regExp p).isSome = true) :
    ∃ f, validateEntries h envVars entries r = Except.ok f := by
  induction entries generalizing r with
  | nil => exact ⟨r, rfl⟩
  | cons e rest ih =>
    obtain ⟨key, d⟩ := e
    obtain ⟨f1, h1⟩ := validateEntry_returns h envVars r key d
      (hk (key, d) (List.mem_cons_self _ _)) (hp (key, d) (List.mem_cons_self _ _))
    obtain ⟨f2, h2⟩ := ih f1 (fun e he => hk e (List.mem_cons_of_mem _ he))
      (fun e he => hp e (List.mem_cons_of_mem _ he))
    exact ⟨f2, by simp only [validateEntries, h1, h2]⟩

/-- The errors and warnings of the loop are those of the entries, one entry
after the other in the order of the schema. -/
theorem validateEntries_flatMap (h : Host) (envVars : Obj String)
    (entries : List (String × FieldSpec)) (f : ValidationResult)
    (hf : validateEntries h envVars entries emptyResults = Except.ok f) :
    f.errors = entries.flatMap (fun e => (entryFindings h envVars e).errors)
      ∧ f.warnings = entries.flatMap (fun e => (entryFindings h envVars e).warnings) := by
  induction entries generalizing f with
  | nil =>
    simp only [validateEntries] at hf
    have hf2 := (Except.ok.inj hf).symm
    subst hf2
    simp [emptyResults]
  | cons e rest ih =>
    obtain ⟨key, d⟩ := e
    rw [validateEntries_cons] at hf
    cases h1 : validateEntry h envVars emptyResults key d with
    | error e => simp [h1] at hf
    | ok f1 =>
      simp only [h1] at hf
      cases h2 : validateEntries h envVars rest emptyResults with
      | error e => simp [h2] at hf
      | ok f2 =>
        simp only [h2] at hf
        have hf2 := (Except.ok.inj hf).symm
        subst hf2
        obtain ⟨i1, i2⟩ := ih f2 h2
        simp [List.flatMap_cons, entryFindings, h1, mergeResults, i1, i2]

/-- In an object (keys all different) the errors and warnings the loop files
under the key of an entry are exactly the findings of that entry. -/
theorem validateEntries_filter_key (h : Host) (envVars : Obj String)
    (entries : List (String × FieldSpec)) (f : ValidationResult)
    (hf : validateEntries h envVars entries emptyResults = Except.ok f)
    (hn : (objectKeys entries).Nodup) (k : String) (d : FieldSpec)
    (hm : (k, d) ∈ entries) :
    ∃ f1, validateEntry h envVars emptyResults k d = Except.ok f1
      ∧ f.errors.filter (fun e => e.key = k) = f1.errors
      ∧ f.warnings.filter (fun w => w.key = some k) = f1.warnings := by
  induction entries generalizing f with
  | nil => simp at hm
  | cons e rest ih =>
    obtain ⟨key, d0⟩ := e
    rw [validateEntries_cons] at hf
    cases h1 : validateEntry h envVars emptyResults key d0 with
    | error e => simp [h1] at hf
    | ok f1 =>
      simp only [h1] at hf
      cases h2 : validateEntries h envVars rest emptyResults with
      | error e => simp [h2] at hf
      | ok f2 =>
        simp only [h2] at hf
        have hf2 := (Except.ok.inj hf).symm
        subst hf2
        simp only [objectKeys, List.map_cons, List.nodup_cons] at hn
        obtain ⟨k1, _, k3, _⟩ := validateEntry_findings h envVars key d0 f1 h1
        obtain ⟨p1, p2⟩ := validateEntries_provenance h envVars rest f2 h2
        simp only [mergeResults, List.filter_append]
        by_cases hkey : key = k
        · subst hkey
          have hd : d = d0 := by
            rcases List.mem_cons.mp hm with hm1 | hm1
            · exact (Prod.mk.inj hm1).2
            · exact absurd (List.mem_map_of_mem Prod.fst hm1) hn.1
          subst hd
          refine ⟨f1, h1, ?_, ?_⟩
          · have a1 : f1.errors.filter (fun e => e.key = key) = f1.errors :=
              List.filter_eq_self.mpr (fun e he => by simp [k1 e he])
            have a2 : f2.errors.filter (fun e => e.key = key) = [] := by
              apply List.filter_eq_nil_iff.mpr
              intro e he hke
              obtain ⟨d2, _, m1, _, _⟩ := p1 e he
              have hke2 : e.key = key := by simpa using hke
              rw [hke2] at m1
              exact hn.1 (List.mem_map_of_mem Prod.fst m1)
            rw [a1, a2, List.append_nil]
          · have a1 : f1.warnings.filter (fun w => w.key = some key) = f1.warnings :=
              List.filter_eq_self.mpr (fun w hw => by simp [(k3 w hw).1])
            have a2 : f2.warnings.filter (fun w => w.key = some key) = [] := by
              apply List.filter_eq_nil_iff.mpr
              intro w hw hkw
              obtain ⟨_, k2, d2, _, m0, m1, _, _⟩ := p2 w hw
              have hkw2 : w.key = some key := by simpa using hkw
              rw [hkw2] at m0
              have hk3 : key = k2 := Option.some.inj m0
              rw [← hk3] at m1
              exact hn.1 (List.mem_map_of_mem Prod.fst m1)
            rw [a1, a2, List.append_nil]
        · have hm2 : (k, d) ∈ rest := by
            rcases List.mem_cons.mp hm with hm1 | hm1
            · exact absurd (Prod.mk.inj hm1).1.symm hkey
            · exact hm1
          obtain ⟨g, g1, g2, g3⟩ := ih f2 h2 hn.2 hm2
          refine ⟨g, g1, ?_, ?_⟩
          · have a1 : f1.errors.filter (fun e => e.key = k) = [] := by
              apply List.filter_eq_nil_iff.mpr
              intro e he hke
              have hke2 : e.key = k := by simpa using hke
              exact hkey ((k1 e he).symm.trans hke2)
            rw [a1, List.nil_append, g2]
          · have a1 : f1.warnings.filter (fun w => w.key = some k) = [] := by
              apply List.filter_eq_nil_iff.mpr
              intro w hw hkw
              have hkw2 : w.key = some k := by simpa using hkw
              rw [(k3 w hw).1] at hkw2
              exact hkey (Option.some.inj hkw2)
            rw [a1, List.nil_append, g3]

/-- The check for extra variables: one warning listing the configuration keys
that the operator `in` does not find in the schema, when there is such a key,
and nothing otherwise. -/
theorem checkExtra_warnings (envVars : Obj String) (schema : Obj FieldSpec)
    (r : ValidationResult) :
    (checkExtra envVars schema r).warnings
      = r.warnings ++
        (if extraKeysOf envVars schema = [] then []
         else [⟨none, some (extraKeysOf envVars schema),
            "Found " ++ toString (extraKeysOf envVars schema).length
              ++ " variables not in schema: "
              ++ ", ".intercalate (extraKeysOf envVars schema)⟩]) := by
  unfold checkExtra extraKeysOf
  simp only
  by_cases he : (objectKeys envVars).filter (fun key => !(jsIn key schema)) = []
  · simp [he, pushWarning]
  · have hl : ((objectKeys envVars).filter (fun key => !(jsIn key schema))).length > 0 :=
      List.length_pos.mpr he
    simp only [hl, he, if_true, if_false, pushWarning]

/-- Away from the names inherited from `Object.prototype`, a run over a schema
whose patterns compile returns: every entry adds its own findings, whatever
the entries before it found, in the order of the schema. -/
theorem validateWithSchema_complete (h : Host) (envVars : Obj String)
    (schema : Obj FieldSpec)
    (hk : ∀ e ∈ schema, e.1 ∉ objectPrototypeKeys)
    (hp : ∀ e ∈ schema, ∀ p, e.2.pattern = some p → (h.regExp p).isSome = true) :
    ∃ r, validateWithSchema h envVars schema = Except.ok r
      ∧ r.errors = schema.flatMap (fun e => (entryFindings h envVars e).errors) := by
  obtain ⟨f, hf⟩ := validateEntries_returns h envVars schema emptyResults hk hp
  refine ⟨checkExtra envVars schema f, ?_, ?_⟩
  · unfold validateWithSchema
    have hf2 : validateEntries h envVars schema ⟨true, [], []⟩ = Except.ok f := hf
    simp only [hf2]
  · rw [(checkExtra_errors envVars schema f).1]
    exact (validateEntries_flatMap h envVars schema f hf).1

theorem checkExtra_filter_key (envVars : Obj String) (schema : Obj FieldSpec)
    (r : ValidationResult) (k : String) :
    (checkExtra envVars schema r).warnings.filter (fun w => w.key = some k)
      = r.warnings.filter (fun w => w.key = some k) := by
  rw [checkExtra_warnings, List.filter_append]
  split_ifs <;> simp

/-- Whole run, required key that `in` does not find: in the result exactly one
error is filed under the key, the "is missing" error, and no warning. -/
theorem validateWithSchema_required_missing (h : Host) (envVars : Obj String)
    (schema : Obj FieldSpec) (r : ValidationResult) (k : String) (d : FieldSpec)
    (hr : validateWithSchema h envVars schema = Except.ok r)
    (hn : (objectKeys schema).Nodup) (hm : (k, d) ∈ schema)
    (hreq : d.required = some true) (hin : jsIn k envVars = false) :
    r.errors.filter (fun e => e.key = k)
        = [⟨k, "Required variable " ++ k ++ " is missing"⟩]
      ∧ r.warnings.filter (fun w => w.key = some k) = [] := by
  obtain ⟨f, hf, rfl⟩ := validateWithSchema_ok h envVars schema r hr
  obtain ⟨f1, g1, g2, g3⟩ := validateEntries_filter_key h envVars schema f hf hn k d hm
  rw [validateEntry_required_missing h envVars _ k d hreq hin] at g1
  have g4 := (Except.ok.inj g1).symm
  subst g4
  rw [(checkExtra_errors envVars schema f).1, checkExtra_filter_key, g2, g3]
  simp [pushError, emptyResults]

/-- Whole run, key that is not required and that `in` does not find: no error
is filed under the key, and the warnings under the key are the one naming the
default when a default is defined, none otherwise. -/
theorem validateWithSchema_optional_missing (h : Host) (envVars : Obj String)
    (schema : Obj FieldSpec) (r : ValidationResult) (k : String) (d : FieldSpec)
    (hr : validateWithSchema h envVars schema = Except.ok r)
    (hn : (objectKeys schema).Nodup) (hm : (k, d) ∈ schema)
    (hreq : d.required ≠ some true) (hin : jsIn k envVars = false) :
    r.errors.filter (fun e => e.key = k) = []
      ∧ r.warnings.filter (fun w => w.key = some k)
          = (match d.default with
             | some dv =>
               [⟨some k, none, "Variable " ++ k ++ " is using default value: " ++ dv⟩]
             | none => []) := by
  obtain ⟨f, hf, rfl⟩ := validateWithSchema_ok h envVars schema r hr
  obtain ⟨f1, g1, g2, g3⟩ := validateEntries_filter_key h envVars schema f hf hn k d hm
  rw [validateEntry_optional_missing h envVars _ k d hreq hin] at g1
  have g4 := (Except.ok.inj g1).symm
  subst g4
  rw [(checkExtra_errors envVars schema f).1, checkExtra_filter_key, g2, g3]
  cases d.default <;> simp [pushWarning, emptyResults]

/-- Whole run, extra variables: the warnings of a result are the warnings of
the schema entries, none of which has a `keys` list, followed by the single
warning about the configuration keys that `in` does not find in the schema,
if there is such a key. -/
theorem validateWithSchema_extra_warning (h : Host) (envVars : Obj String)
    (schema : Obj FieldSpec) (r : ValidationResult)
    (hr : validateWithSchema h envVars schema = Except.ok r) :
    ∃ perKey : List ValidationWarning,
      (∀ w ∈ perKey, w.keys = none)
      ∧ r.warnings = perKey ++
        (if extraKeysOf envVars schema = [] then []
         else [⟨none, some (extraKeysOf envVars schema),
            "Found " ++ toString (extraKeysOf envVars schema).length
              ++ " variables not in schema: "
              ++ ", ".intercalate (extraKeysOf envVars schema)⟩]) := by
  obtain ⟨f, hf, rfl⟩ := validateWithSchema_ok h envVars schema r hr
  exact ⟨f.warnings, fun w hw => ((validateEntries_provenance h envVars schema f hf).2 w hw).1,
    checkExtra_warnings envVars schema f⟩

/-- When no configuration key is a name inherited from `Object.prototype`, the
keys reported as extra are the configuration keys that are not schema keys, in
the order of the configuration. -/
theorem extraKeysOf_eq (envVars : Obj String) (schema : Obj FieldSpec)
    (hk : ∀ k ∈ objectKeys envVars, k ∉ objectPrototypeKeys) :
    extraKeysOf envVars schema
      = (objectKeys envVars).filter (fun key => !(hasOwn key schema)) := by
  unfold extraKeysOf
  apply List.filter_congr
  intro k hkm
  rw [jsIn_eq_hasOwn_of_not_inherited schema k (hk k hkm)]

theorem validateEntry_throws (h : Host) (envVars : Obj String) (r : ValidationResult)
    (k : String) (d : FieldSpec) (p : String) (hp : d.pattern = some p)
    (hbad : h.regExp p = none) (hin : jsIn k envVars = true) :
    ∃ e, validateEntry h envVars r k d = Except.error e := by
  have hne : p ≠ "" := by
    rintro rfl
    have h2 := h.emptyPattern
    rw [hbad] at h2
    simp at h2
  have ht : truthyString d.pattern = some p := by
    simp [hp, truthyString, hne]
  rw [validateEntry_present h envVars r k d hin]
  cases h1 : checkType h k d (getProp envVars k) r with
  | error e => exact ⟨e, rfl⟩
  | ok r1 =>
    simp only
    have h2 : checkPattern h k d (getProp envVars k) r1
        = Except.error (JsError.syntaxError p) := by
      simp [checkPattern, ht, hbad]
    rw [h2]
    exact ⟨_, rfl⟩

theorem validateEntries_throws (h : Host) (envVars : Obj String)
    (entries : List (String × FieldSpec)) (r : ValidationResult)
    (k : String) (d : FieldSpec) (p : String) (hm : (k, d) ∈ entries)
    (hp : d.pattern = some p) (hbad : h.regExp p = none)
    (hin : jsIn k envVars = true) :
    ∃ e, validateEntries h envVars entries r = Except.error e := by
  induction entries generalizing r with
  | nil => simp at hm
  | cons e0 rest ih =>
    obtain ⟨key, d0⟩ := e0
    simp only [validateEntries]
    cases h1 : validateEntry h envVars r key d0 with
    | error e => exact ⟨e, rfl⟩
    | ok r1 =>
      simp only
      rcases List.mem_cons.mp hm with hm1 | hm1
      · obtain ⟨hk, hd⟩ := Prod.mk.inj hm1
        subst hk
        subst hd
        obtain ⟨e, he⟩ := validateEntry_throws h envVars r k d p hp hbad hin
        rw [he] at h1
        exact Except.noConfusion h1
      · exact ih r1 hm1

theorem validateEntries_unfound_keys_return (h : Host) (envVars : Obj String)
    (entries : List (String × FieldSpec)) (r : ValidationResult)
    (hin : ∀ e ∈ entries, jsIn e.1 envVars = false) :
    ∃ f, validateEntries h envVars entries r = Except.ok f := by
  induction entries generalizing r with
  | nil => exact ⟨r, rfl⟩
  | cons e rest ih =>
    obtain ⟨key, d⟩ := e
    have hk : jsIn key envVars = false := hin (key, d) (List.mem_cons_self _ _)
    have hstep : ∃ r1, validateEntry h envVars r key d = Except.ok r1 := by
      by_cases hreq : d.required = some true
      · exact ⟨_, validateEntry_required_missing h envVars r key d hreq hk⟩
      · exact ⟨_, validateEntry_optional_missing h envVars r key d hreq hk⟩
    obtain ⟨r1, h1⟩ := hstep
    obtain ⟨f, hf⟩ := ih r1 (fun e he => hin e (List.mem_cons_of_mem _ he))
    exact ⟨f, by simp only [validateEntries, h1, hf]⟩

/-- A schema for none of whose keys the test `key in envVars` holds is
validated without any of its patterns being compiled: the run returns
whatever the patterns are. -/
theorem validateWithSchema_unfound_keys_return (h : Host) (envVars : Obj String)
    (schema : Obj FieldSpec) (hin : ∀ e ∈ schema, jsIn e.1 envVars = false) :
    ∃ r, validateWithSchema h envVars schema = Except.ok r := by
  obtain ⟨f, hf⟩ := validateEntries_unfound_keys_return h envVars schema ⟨true, [], []⟩ hin
  refine ⟨checkExtra envVars schema f, ?_⟩
  simp only [validateWithSchema, hf]

/-! ## validateWithSchema: the claims -/

/-- C4, at the input where the code departs from it: no pattern is involved,
the key `B` is in the configuration and fails its type check, and the run ends
in a `TypeError` instead of a result with that error, because the schema key
`toString` passes the test `key in envVars` and the inherited function has no
`toLowerCase`. -/
theorem validateWithSchema_inherited_key_throws :
    validateWithSchema sampleHost [("B", "abc")]
        [("B", { type := some "number" }), ("toString", { type := some "boolean" })]
      = Except.error (JsError.typeError "value.toLowerCase is not a function") := by
  decide

/-- The example of the specification: `A` required and missing, `B` present
and not matching its pattern give an invalid result with exactly two errors,
in the order of the schema. -/
theorem validateWithSchema_two_errors :
    validateWithSchema sampleHost [("B", "abc")]
        [("A", { required := some true }), ("B", { pattern := some "^[0-9]+$" })]
      = Except.ok ⟨false, [⟨"A", "Required variable A is missing"⟩,
          ⟨"B", "Variable B does not match required pattern: ^[0-9]+$"⟩], []⟩ := by
  decide

/-- C5 as stated fails: the entry of `A` has neither `required` nor `default`,
`A` is absent from the configuration, and the result is valid, without any
error. -/
theorem validateWithSchema_absent_required_field_counterexample :
    ({} : FieldSpec).required = none ∧ ({} : FieldSpec).default = none
      ∧ jsIn "A" ([] : Obj String) = false
      ∧ validateWithSchema sampleHost [] [("A", {})] = Except.ok ⟨true, [], []⟩ := by
  decide

/-- C5, amended: a FieldSpec without a `required` field is treated as not
required. When the test `key in config` fails for a key whose schema entry has
no `required` field and no default, the result holds no error and no warning
for that key. -/
theorem validateWithSchema_absent_required_field (h : Host) (envVars : Obj String)
    (schema : Obj FieldSpec) (r : ValidationResult) (k : String)
    (hr : validateWithSchema h envVars schema = Except.ok r)
    (hin : jsIn k envVars = false)
    (hd : ∀ e ∈ schema, e.1 = k → e.2.required = none ∧ e.2.default = none) :
    (∀ e ∈ r.errors, e.key ≠ k) ∧ (∀ w ∈ r.warnings, w.key ≠ some k) := by
  obtain ⟨f, hf, rfl⟩ := validateWithSchema_ok h envVars schema r hr
  obtain ⟨p1, p2⟩ := validateEntries_provenance h envVars schema f hf
  have hnone : ∀ d f1, (k, d) ∈ schema →
      validateEntry h envVars emptyResults k d = Except.ok f1 → f1 = emptyResults := by
    intro d f1 hm h1
    obtain ⟨q1, q2⟩ := hd (k, d) hm rfl
    have q3 : d.required = none := q1
    have q4 : d.default = none := q2
    have hreq : d.required ≠ some true := by simp [q3]
    rw [validateEntry_optional_missing h envVars _ k d hreq hin, q4] at h1
    exact (Except.ok.inj h1).symm
  constructor
  · intro e he hk
    rw [(checkExtra_errors envVars schema f).1] at he
    obtain ⟨d, f1, m1, m2, m3⟩ := p1 e he
    rw [hk] at m1 m2
    rw [hnone d f1 m1 m2] at m3
    simp [emptyResults] at m3
  · intro w hw hk
    have hw2 : w ∈ (checkExtra envVars schema f).warnings.filter (fun w => w.key = some k) :=
      List.mem_filter.mpr ⟨hw, by simp [hk]⟩
    rw [checkExtra_filter_key] at hw2
    have hw3 := (List.mem_filter.mp hw2).1
    obtain ⟨_, k2, d, f1, m0, m1, m2, m3⟩ := p2 w hw3
    rw [hk] at m0
    have hk2 : k = k2 := Option.some.inj m0
    subst hk2
    rw [hnone d f1 m1 m2] at m3
    simp [emptyResults] at m3

/-- An instance of the amended C5: the entry of `A` has no field at all and
`A` is not in the (empty) configuration. -/
theorem validateWithSchema_absent_required_field_witness :
    validateWithSchema sampleHost [] [("A", {})] = Except.ok ⟨true, [], []⟩
      ∧ (∀ e ∈ ([] : List ValidationError), e.key ≠ "A")
      ∧ (∀ w ∈ ([] : List ValidationWarning), w.key ≠ some "A") :=
  ⟨by decide,
   validateWithSchema_absent_required_field sampleHost [] [("A", {})] ⟨true, [], []⟩ "A"
     (by decide) (by decide) (by decide)⟩

/-- C6, at the input where the code departs from it: the entry of `toString`
is required and the configuration is empty, yet the result is valid and holds
no "is missing" error, because `"toString" in envVars` holds. -/
theorem validateWithSchema_inherited_required_key_not_reported :
    validateWithSchema sampleHost [] [("toString", { required := some true })]
      = Except.ok ⟨true, [], []⟩ := by
  decide

/-- C7: in every result the run returns, `valid` is true exactly when there
is no error; so two results with the same errors have the same `valid`,
whatever their warnings. -/
theorem validateWithSchema_valid_iff (h : Host) (envVars : Obj String)
    (schema : Obj FieldSpec) (r : ValidationResult)
    (hr : validateWithSchema h envVars schema = Except.ok r) :
    (r.valid = true ↔ r.errors = [])
      ∧ ∀ (h2 : Host) (envVars2 : Obj String) (schema2 : Obj FieldSpec)
          (r2 : ValidationResult),
          validateWithSchema h2 envVars2 schema2 = Except.ok r2 →
          r2.errors = r.errors → r2.valid = r.valid := by
  have key : ∀ (h : Host) (envVars : Obj String) (schema : Obj FieldSpec)
      (r : ValidationResult), validateWithSchema h envVars schema = Except.ok r →
      (r.valid = true ↔ r.errors = []) := by
    intro h envVars schema r hr
    obtain ⟨f, hf, rfl⟩ := validateWithSchema_ok h envVars schema r hr
    rw [(checkExtra_errors envVars schema f).1, (checkExtra_errors envVars schema f).2]
    exact validateEntries_valid_iff h envVars schema f hf
  refine ⟨key h envVars schema r hr, ?_⟩
  intro h2 envVars2 schema2 r2 hr2 he
  have i1 := key h envVars schema r hr
  have i2 := key h2 envVars2 schema2 r2 hr2
  rw [he] at i2
  cases hv : r.valid <;> cases hv2 : r2.valid <;> simp_all

/-- An instance of C7: a run with one error and two warnings. -/
theorem validateWithSchema_valid_iff_witness :
    validateWithSchema sampleHost [("B", "abc"), ("X", "1")]
        [("A", { required := some true }),
         ("D", { required := some false, default := some "x" })]
      = Except.ok ⟨false, [⟨"A", "Required variable A is missing"⟩],
          [⟨some "D", none, "Variable D is using default value: x"⟩,
           ⟨none, some ["B", "X"], "Found 2 variables not in schema: B, X"⟩]⟩
      ∧ ((false = true ↔ [(⟨"A", "Required variable A is missing"⟩ : ValidationError)] = [])
        ∧ ∀ (h2 : Host) (envVars2 : Obj String) (schema2 : Obj FieldSpec)
            (r2 : ValidationResult),
            validateWithSchema h2 envVars2 schema2 = Except.ok r2 →
            r2.errors = [⟨"A", "Required variable A is missing"⟩] → r2.valid = false) :=
  ⟨by decide,
   validateWithSchema_valid_iff sampleHost [("B", "abc"), ("X", "1")]
     [("A", { required := some true }),
      ("D", { required := some false, default := some "x" })]
     ⟨false, [⟨"A", "Required variable A is missing"⟩],
       [⟨some "D", none, "Variable D is using default value: x"⟩,
        ⟨none, some ["B", "X"], "Found 2 variables not in schema: B, X"⟩]⟩
     (by decide)⟩

/-- C8 as stated fails: the pattern `(` does not compile, the entry that
carries it is for a key absent from the configuration, and the run returns a
(valid) result: the pattern is never compiled. -/
theorem validateWithSchema_malformed_pattern_counterexample :
    sampleHost.regExp "(" = none
      ∧ validateWithSchema sampleHost []
          [("A", { required := some false, pattern := some "(" })]
        = Except.ok ⟨true, [], []⟩ := by
  constructor
  · rfl
  · decide

/-- C8, amended: a malformed pattern makes the run throw whenever the key of
the entry that carries it is a key of the configuration; no result is
returned then. -/
theorem validateWithSchema_malformed_pattern (h : Host) (envVars : Obj String)
    (schema : Obj FieldSpec) (k : String) (d : FieldSpec) (p : String)
    (hm : (k, d) ∈ schema) (hp : d.pattern = some p) (hbad : h.regExp p = none)
    (hk : k ∈ objectKeys envVars) :
    ∃ e, validateWithSchema h envVars schema = Except.error e := by
  have hin : jsIn k envVars = true := by
    simp [jsIn, (hasOwn_iff k envVars).mpr hk]
  obtain ⟨e, he⟩ := validateEntries_throws h envVars schema ⟨true, [], []⟩ k d p hm hp hbad hin
  exact ⟨e, by simp only [validateWithSchema, he]⟩

/-- An instance of the amended C8: the pattern `(` of the entry of `A`, a key
of the configuration, makes the run throw. -/
theorem validateWithSchema_malformed_pattern_witness :
    (("A", { pattern := some "(" }) : String × FieldSpec) ∈
        ([("Z", { type := some "number" }), ("A", { pattern := some "(" })] : Obj FieldSpec)
      ∧ sampleHost.regExp "(" = none
      ∧ "A" ∈ objectKeys ([("A", "x"), ("Z", "y")] : Obj String)
      ∧ ∃ e, validateWithSchema sampleHost [("A", "x"), ("Z", "y")]
          [("Z", { type := some "number" }), ("A", { pattern := some "(" })]
          = Except.error e :=
  ⟨by decide, rfl, by decide,
   validateWithSchema_malformed_pattern sampleHost [("A", "x"), ("Z", "y")]
     [("Z", { type := some "number" }), ("A", { pattern := some "(" })]
     "A" { pattern := some "(" } "(" (by decide) rfl rfl (by decide)⟩

/-- C9, at the input where the code departs from it: the entry of `toString`
is not required and has the default `x`, the configuration is empty, yet the
result holds no warning, because `"toString" in envVars` holds. -/
theorem validateWithSchema_inherited_default_key_not_warned :
    validateWithSchema sampleHost []
        [("toString", { required := some false, default := some "x" })]
      = Except.ok ⟨true, [], []⟩ := by
  decide

/-- The example of the specification for defaults: zero errors and one warning
that names the default `x`. -/
theorem validateWithSchema_default_warning :
    validateWithSchema sampleHost [] [("A", { required := some false, default := some "x" })]
      = Except.ok ⟨true, [], [⟨some "A", none, "Variable A is using default value: x"⟩]⟩ := by
  decide

/-- C10, at the input where the code departs from it: the configuration key
`toString` is not a key of the (empty) schema, yet the result holds no warning
about extra keys, because `"toString" in schema` holds. -/
theorem validateWithSchema_inherited_extra_key_not_reported :
    "toString" ∈ objectKeys ([("toString", "x")] : Obj String)
      ∧ "toString" ∉ objectKeys ([] : Obj FieldSpec)
      ∧ validateWithSchema sampleHost [("toString", "x")] []
        = Except.ok ⟨true, [], []⟩ := by
  decide

/-! ## init.js: lower-casing and substrings -/

theorem char_toLower_cases (c : Char) :
    c.toLower = c
      ∨ ∃ n, 65 ≤ n ∧ n ≤ 90 ∧ c = Char.ofNat n ∧ c.toLower = Char.ofNat (n + 32) := by
  unfold Char.toLower
  simp only
  split
  · rename_i hn
    exact Or.inr ⟨c.toNat, hn.1, hn.2, (Char.ofNat_toNat c).symm, rfl⟩
  · exact Or.inl rfl

theorem char_toLower_eq_y (c : Char) (h : c.toLower = 'y') : c = 'y' ∨ c = 'Y' := by
  rcases char_toLower_cases c with h1 | ⟨n, h1, h2, h3, h4⟩
  · exact Or.inl (h1.symm.trans h)
  · rw [h4] at h
    subst h3
    interval_cases n <;> first | exact Or.inr rfl | exact absurd h (by decide)

theorem char_toLower_eq_e (c : Char) (h : c.toLower = 'e') : c = 'e' ∨ c = 'E' := by
  rcases char_toLower_cases c with h1 | ⟨n, h1, h2, h3, h4⟩
  · exact Or.inl (h1.symm.trans h)
  · rw [h4] at h
    subst h3
    interval_cases n <;> first | exact Or.inr rfl | exact absurd h (by decide)

theorem char_toLower_eq_s (c : Char) (h : c.toLower = 's') : c = 's' ∨ c = 'S' := by
  rcases char_toLower_cases c with h1 | ⟨n, h1, h2, h3, h4⟩
  · exact Or.inl (h1.symm.trans h)
  · rw [h4] at h
    subst h3
    interval_cases n <;> first | exact Or.inr rfl | exact absurd h (by decide)

theorem char_toLower_eq_n (c : Char) (h : c.toLower = 'n') : c = 'n' ∨ c = 'N' := by
  rcases char_toLower_cases c with h1 | ⟨n, h1, h2, h3, h4⟩
  · exact Or.inl (h1.symm.trans h)
  · rw [h4] at h
    subst h3
    interval_cases n <;> first | exact Or.inr rfl | exact absurd h (by decide)

theorem char_toLower_eq_o (c : Char) (h : c.toLower = 'o') : c = 'o' ∨ c = 'O' := by
  rcases char_toLower_cases c with h1 | ⟨n, h1, h2, h3, h4⟩
  · exact Or.inl (h1.symm.trans h)
  · rw [h4] at h
    subst h3
    interval_cases n <;> first | exact Or.inr rfl | exact absurd h (by decide)

/-- The strings that lower-case to `yes`. -/
theorem toLowerCase_eq_yes (s : String) (h : toLowerCase s = "yes") :
    s ∈ ["yes", "yeS", "yEs", "yES", "Yes", "YeS", "YEs", "YES"] := by
  obtain ⟨cs⟩ := s
  unfold toLowerCase at h
  have h2 : cs.map Char.toLower = ['y', 'e', 's'] := by
    have h3 := congrArg String.data h
    simpa using h3
  simp only [List.map_eq_cons_iff, List.map_eq_nil_iff] at h2
  obtain ⟨a, r1, rfl, ha, b, r2, rfl, hb, c, r3, rfl, hc, rfl⟩ := h2
  rcases char_toLower_eq_y a ha with rfl | rfl
    <;> rcases char_toLower_eq_e b hb with rfl | rfl
    <;> rcases char_toLower_eq_s c hc with rfl | rfl
    <;> decide

/-- The strings that lower-case to `no`. -/
theorem toLowerCase_eq_no (s : String) (h : toLowerCase s = "no") :
    s ∈ ["no", "nO", "No", "NO"] := by
  obtain ⟨cs⟩ := s
  unfold toLowerCase at h
  have h2 : cs.map Char.toLower = ['n', 'o'] := by
    have h3 := congrArg String.data h
    simpa using h3
  simp only [List.map_eq_cons_iff, List.map_eq_nil_iff] at h2
  obtain ⟨a, r1, rfl, ha, b, r2, rfl, hb, rfl⟩ := h2
  rcases char_toLower_eq_n a ha with rfl | rfl
    <;> rcases char_toLower_eq_o b hb with rfl | rfl
    <;> decide

/-- No spelling of `yes` or `no` is a number, and each is one of the words the
inferencer takes for booleans but none of those the validator accepts. -/
theorem yes_no_facts (s : String) (h : toLowerCase s = "yes" ∨ toLowerCase s = "no") :
    numberIsNaN s = true ∧ inferredBooleanWords.contains (toLowerCase s) = true
      ∧ ["true", "false", "0", "1"].contains (toLowerCase s) = false := by
  rcases h with h | h
  · have hm := toLowerCase_eq_yes s h
    refine ⟨?_, ?_, ?_⟩
    · have all : ∀ t ∈ ["yes", "yeS", "yEs", "yES", "Yes", "YeS", "YEs", "YES"],
          numberIsNaN t = true := by decide
      exact all s hm
    · rw [h]
      decide
    · rw [h]
      decide
  · have hm := toLowerCase_eq_no s h
    refine ⟨?_, ?_, ?_⟩
    · have all : ∀ t ∈ ["no", "nO", "No", "NO"], numberIsNaN t = true := by decide
      exact all s hm
    · rw [h]
      decide
    · rw [h]
      decide

/-- The function `includesChars` decides whether `sub` is a contiguous part
of `s`. -/
theorem includesChars_iff (s sub : List Char) :
    includesChars s sub = true ↔ sub <:+: s := by
  induction s with
  | nil => simp [includesChars, List.infix_nil]
  | cons c cs ih =>
    simp only [includesChars, Bool.or_eq_true, List.isPrefixOf_iff_prefix, ih,
      List.infix_cons_iff]

theorem jsIncludes_iff (s sub : String) :
    jsIncludes s sub = true ↔ sub.toList <:+: s.toList := by
  simp [jsIncludes, includesChars_iff]

/-! ## inferSchemaForValue: the fields of the inferred entry -/

theorem inferSchemaForValue_type_eq (key value : String) :
    (inferSchemaForValue key value).type =
      some (if !(numberIsNaN value) then "number"
        else if inferredBooleanWords.contains (toLowerCase value) then "boolean"
        else if matchesHttpPrefix value then "url"
        else if matchesEmail value then "email"
        else if matchesIpAddress value then "ipaddress"
        else "string") := by
  unfold inferSchemaForValue
  simp only
  split_ifs <;> rfl

theorem inferSchemaForValue_sensitive_eq (key value : String) :
    (inferSchemaForValue key value).sensitive
      = if looksSensitive key then some true else none := by
  unfold inferSchemaForValue
  simp only
  split_ifs <;> rfl

theorem inferSchemaForValue_required_eq (key value : String) :
    (inferSchemaForValue key value).required
      = if namesDefault key then some false else some true := by
  unfold inferSchemaForValue
  simp only
  split_ifs <;> rfl

theorem inferSchemaForValue_default_eq (key value : String) :
    (inferSchemaForValue key value).default
      = if namesDefault key then some value else none := by
  unfold inferSchemaForValue
  simp only
  split_ifs <;> rfl

theorem looksSensitive_iff (key : String) :
    looksSensitive key = true
      ↔ ∃ w ∈ ["SECRET", "PASSWORD", "KEY", "TOKEN", "AUTH"], w.toList <:+: key.toList := by
  simp [looksSensitive, jsIncludes_iff, or_assoc]

theorem isSensitiveLooking_iff (key : String) :
    isSensitiveLooking key = true
      ↔ ∃ w ∈ ["SECRET", "PASSWORD", "KEY", "TOKEN"], w.toList <:+: key.toList := by
  simp [isSensitiveLooking, jsIncludes_iff, or_assoc]

theorem namesDefault_iff (key : String) :
    namesDefault key = true
      ↔ "DEFAULT".toList <:+: key.toList ∨ "FALLBACK".toList <:+: key.toList := by
  simp [namesDefault, jsIncludes_iff]

/-! ## Lists: scanning while a test holds -/

theorem takeWhile_append_stop {α : Type} (p : α → Bool) (l rest : List α) (x : α)
    (hl : ∀ c ∈ l, p c = true) (hx : p x = false) :
    (l ++ x :: rest).takeWhile p = l := by
  induction l with
  | nil => simp [List.takeWhile_cons, hx]
  | cons a t ih =>
    have ha : p a = true := hl a (List.mem_cons_self _ _)
    simp only [List.cons_append, List.takeWhile_cons, ha, if_true]
    rw [ih (fun c hc => hl c (List.mem_cons_of_mem _ hc))]

theorem dropWhile_append_stop {α : Type} (p : α → Bool) (l rest : List α) (x : α)
    (hl : ∀ c ∈ l, p c = true) (hx : p x = false) :
    (l ++ x :: rest).dropWhile p = x :: rest := by
  induction l with
  | nil => simp [List.dropWhile_cons, hx]
  | cons a t ih =>
    have ha : p a = true := hl a (List.mem_cons_self _ _)
    simp only [List.cons_append, List.dropWhile_cons, ha, if_true]
    exact ih (fun c hc => hl c (List.mem_cons_of_mem _ hc))

theorem takeWhile_all {α : Type} (p : α → Bool) (l : List α)
    (hl : ∀ c ∈ l, p c = true) : l.takeWhile p = l := by
  induction l with
  | nil => rfl
  | cons a t ih =>
    have ha : p a = true := hl a (List.mem_cons_self _ _)
    simp only [List.takeWhile_cons, ha, if_true]
    rw [ih (fun c hc => hl c (List.mem_cons_of_mem _ hc))]

theorem dropWhile_all {α : Type} (p : α → Bool) (l : List α)
    (hl : ∀ c ∈ l, p c = true) : l.dropWhile p = [] := by
  induction l with
  | nil => rfl
  | cons a t ih =>
    have ha : p a = true := hl a (List.mem_cons_self _ _)
    simp only [List.dropWhile_cons, ha, if_true]
    exact ih (fun c hc => hl c (List.mem_cons_of_mem _ hc))

theorem takeWhile_holds {α : Type} (p : α → Bool) (l : List α) :
    ∀ c ∈ l.takeWhile p, p c = true := by
  induction l with
  | nil => simp
  | cons a t ih =>
    intro c hc
    by_cases ha : p a = true
    · simp only [List.takeWhile_cons, ha, if_true, List.mem_cons] at hc
      rcases hc with rfl | hc
      · exact ha
      · exact ih c hc
    · have ha2 : p a = false := by simpa using ha
      simp [List.takeWhile_cons, ha2] at hc

theorem dropWhile_head_fails {α : Type} (p : α → Bool) (l : List α) (x : α) (rest : List α)
    (h : l.dropWhile p = x :: rest) : p x = false := by
  induction l with
  | nil => simp at h
  | cons a t ih =>
    by_cases ha : p a = true
    · simp only [List.dropWhile_cons, ha, if_true] at h
      exact ih h
    · have ha2 : p a = false := by simpa using ha
      simp only [List.dropWhile_cons, ha2, Bool.false_eq_true, if_false] at h
      obtain ⟨h1, _⟩ := List.cons.inj h
      rw [← h1]
      exact ha2

/-! ## The tests of init.js against the shapes of the specification -/

theorem matchesHttpPrefix_iff (v : String) : matchesHttpPrefix v = true ↔ HasHttpPrefix v := by
  simp [matchesHttpPrefix, HasHttpPrefix, List.isPrefixOf_iff_prefix]

theorem inferredBooleanWords_iff (v : String) :
    inferredBooleanWords.contains (toLowerCase v) = true ↔ IsBooleanWord v := by
  simp [inferredBooleanWords, IsBooleanWord]

theorem digit_ne_dot (c : Char) (h : isDecimalDigit c = true) : c ≠ '.' := by
  rintro rfl
  exact absurd h (by decide)

theorem splitDots_ne_nil (cs : List Char) : splitDots cs ≠ [] := by
  cases cs with
  | nil => simp [splitDots]
  | cons c t =>
    unfold splitDots
    cases splitDots t with
    | nil => simp
    | cons p ps => split_ifs <;> simp

theorem splitDots_dot (rest : List Char) : splitDots ('.' :: rest) = [] :: splitDots rest := by
  have h := splitDots_ne_nil rest
  conv_lhs => rw [splitDots]
  cases hs : splitDots rest with
  | nil => exact absurd hs h
  | cons p ps => simp

theorem splitDots_append_dot (p rest : List Char) (hp : ∀ c ∈ p, c ≠ '.') :
    splitDots (p ++ '.' :: rest) = p :: splitDots rest := by
  induction p with
  | nil => simpa using splitDots_dot rest
  | cons c t ih =>
    have hc : c ≠ '.' := hp c (List.mem_cons_self _ _)
    have ih2 := ih (fun x hx => hp x (List.mem_cons_of_mem _ hx))
    simp only [List.cons_append]
    rw [splitDots, ih2]
    simp [hc]

theorem splitDots_no_dot (p : List Char) (hp : ∀ c ∈ p, c ≠ '.') : splitDots p = [p] := by
  induction p with
  | nil => rfl
  | cons c t ih =>
    have hc : c ≠ '.' := hp c (List.mem_cons_self _ _)
    have ih2 := ih (fun x hx => hp x (List.mem_cons_of_mem _ hx))
    rw [splitDots, ih2]
    simp [hc]

theorem joinDots_splitDots (cs : List Char) : joinDots (splitDots cs) = cs := by
  induction cs with
  | nil => rfl
  | cons c t ih =>
    have hne := splitDots_ne_nil t
    rw [splitDots]
    cases hs : splitDots t with
    | nil => exact absurd hs hne
    | cons p ps =>
      rw [hs] at ih
      by_cases hc : c = '.'
      · subst hc
        simp only [if_true]
        simp only [joinDots, List.nil_append, ih]
      · simp only [hc, if_false]
        cases ps with
        | nil =>
          simp only [joinDots] at ih ⊢
          rw [ih]
        | cons q r =>
          simp only [joinDots] at ih ⊢
          rw [← ih]
          rfl

theorem matchesIpAddress_iff (v : String) : matchesIpAddress v = true ↔ IsDottedQuad v := by
  unfold matchesIpAddress IsDottedQuad
  simp only [Bool.and_eq_true, decide_eq_true_eq, List.all_eq_true]
  constructor
  · rintro ⟨hlen, hall⟩
    have hj := joinDots_splitDots v.toList
    match hs : splitDots v.toList, hlen, hall with
    | [a, b, c, d], _, hall =>
      rw [hs] at hj
      refine ⟨a, b, c, d, ?_, ?_, ?_, ?_, ?_⟩
      · rw [← hj]
        rfl
      · have h := hall a (by simp)
        exact ⟨h.1.1, h.1.2, fun x hx => h.2 x hx⟩
      · have h := hall b (by simp)
        exact ⟨h.1.1, h.1.2, fun x hx => h.2 x hx⟩
      · have h := hall c (by simp)
        exact ⟨h.1.1, h.1.2, fun x hx => h.2 x hx⟩
      · have h := hall d (by simp)
        exact ⟨h.1.1, h.1.2, fun x hx => h.2 x hx⟩
  · rintro ⟨a, b, c, d, hv, ha, hb, hc, hd⟩
    have na : ∀ x ∈ a, x ≠ '.' := fun x hx => digit_ne_dot x (ha.2.2 x hx)
    have nb : ∀ x ∈ b, x ≠ '.' := fun x hx => digit_ne_dot x (hb.2.2 x hx)
    have nc : ∀ x ∈ c, x ≠ '.' := fun x hx => digit_ne_dot x (hc.2.2 x hx)
    have nd : ∀ x ∈ d, x ≠ '.' := fun x hx => digit_ne_dot x (hd.2.2 x hx)
    have hs : splitDots v.toList = [a, b, c, d] := by
      rw [hv, splitDots_append_dot a _ na, splitDots_append_dot b _ nb,
        splitDots_append_dot c _ nc, splitDots_no_dot d nd]
    rw [hs]
    refine ⟨rfl, ?_⟩
    intro p hp
    simp only [List.mem_cons, List.mem_singleton, List.not_mem_nil, or_false] at hp
    rcases hp with rfl | rfl | rfl | rfl
    · exact ⟨⟨ha.1, ha.2.1⟩, ha.2.2⟩
    · exact ⟨⟨hb.1, hb.2.1⟩, hb.2.2⟩
    · exact ⟨⟨hc.1, hc.2.1⟩, hc.2.2⟩
    · exact ⟨⟨hd.1, hd.2.1⟩, hd.2.2⟩

theorem matchesEmail_iff (v : String) : matchesEmail v = true ↔ IsEmailShape v := by
  unfold matchesEmail IsEmailShape
  simp only [Bool.and_eq_true, Bool.not_eq_true', decide_eq_true_eq, List.isEmpty_eq_false]
  constructor
  · rintro ⟨⟨⟨hws, hcount⟩, hloc⟩, hdot⟩
    have hsplit := List.takeWhile_append_dropWhile (fun c => decide (c ≠ '@')) v.toList
    have hl := takeWhile_holds (fun c => decide (c ≠ '@')) v.toList
    have hws2 : ∀ c ∈ v.toList, isJsWhiteSpace c = false := by
      intro c hc
      cases hw : isJsWhiteSpace c with
      | false => rfl
      | true =>
        have : v.toList.any isJsWhiteSpace = true := List.any_eq_true.mpr ⟨c, hc, hw⟩
        rw [hws] at this
        exact Bool.noConfusion this
    cases hD : v.toList.dropWhile (fun c => decide (c ≠ '@')) with
    | nil =>
      rw [hD] at hdot
      simp at hdot
    | cons x dom =>
      have hx : x = '@' := by
        have h := dropWhile_head_fails _ _ _ _ hD
        simpa using h
      subst hx
      rw [hD] at hdot hsplit
      simp only [List.drop_succ_cons, List.drop_zero] at hdot
      cases dom with
      | nil => simp at hdot
      | cons y m =>
        simp only [List.drop_succ_cons, List.drop_zero] at hdot
        have hmem : '.' ∈ m.dropLast := by simpa using hdot
        have hm : m ≠ [] := by
          rintro rfl
          simp at hmem
        obtain ⟨p1, q, hpq⟩ := List.append_of_mem hmem
        have hm2 := List.dropLast_append_getLast hm
        have hnoat : '@' ∉ y :: m := by
          have hc := hcount
          rw [← hsplit, List.count_append, List.count_cons_self] at hc
          have h0 : List.count '@' (y :: m) = 0 := by omega
          exact List.count_eq_zero.mp h0
        refine ⟨v.toList.takeWhile (fun c => decide (c ≠ '@')), y :: p1,
          q ++ [m.getLast hm], ?_, hloc, by simp, by simp, ?_⟩
        · have hm3 : m = p1 ++ '.' :: (q ++ [m.getLast hm]) := by
            conv_lhs => rw [← hm2, hpq]
            simp
          exact hsplit.symm.trans
            (congrArg (fun z => v.toList.takeWhile (fun c => decide (c ≠ '@')) ++ '@' :: y :: z)
              hm3)
        · intro c hc
          have hcin : c ∈ v.toList := by
            rw [← hsplit]
            simp only [List.mem_append, List.mem_cons] at hc ⊢
            rcases hc with hc | hc | hc
            · exact Or.inl hc
            · right; right
              rw [← hm2, hpq]
              simp only [List.mem_cons, List.mem_append] at hc ⊢
              rcases hc with hc | hc
              · exact Or.inl hc
              · exact Or.inr (Or.inl (Or.inl hc))
            · right; right; right
              rw [← hm2, hpq]
              simp only [List.mem_cons, List.mem_append, List.mem_singleton] at hc ⊢
              rcases hc with hc | hc
              · exact Or.inl (Or.inr (Or.inr hc))
              · exact Or.inr hc
          refine ⟨hws2 c hcin, ?_⟩
          simp only [List.mem_append] at hc
          rcases hc with hc | hc
          · simpa using hl c hc
          · rintro rfl
            apply hnoat
            rw [← hm2, hpq]
            simp only [List.mem_cons, List.mem_append, List.mem_singleton] at hc ⊢
            rcases hc with (hc | hc) | (hc | hc)
            · exact Or.inl hc
            · exact Or.inr (Or.inl (Or.inl hc))
            · exact Or.inr (Or.inl (Or.inr (Or.inr hc)))
            · exact Or.inr (Or.inr hc)
  · rintro ⟨l, d, t, hv, hl, hd, ht, hall⟩
    have hal : ∀ c ∈ l, decide (c ≠ '@') = true := by
      intro c hc
      simpa using (hall c (by simp [hc])).2
    have htw : v.toList.takeWhile (fun c => decide (c ≠ '@')) = l := by
      rw [hv]
      exact takeWhile_append_stop _ l _ '@' hal (by simp)
    have hdw : v.toList.dropWhile (fun c => decide (c ≠ '@')) = '@' :: (d ++ ('.' :: t)) := by
      rw [hv]
      exact dropWhile_append_stop _ l _ '@' hal (by simp)
    rw [htw, hdw]
    refine ⟨⟨⟨?_, ?_⟩, hl⟩, ?_⟩
    · cases hw : v.toList.any isJsWhiteSpace with
      | false => rfl
      | true =>
        obtain ⟨c, hc, hcw⟩ := List.any_eq_true.mp hw
        rw [hv] at hc
        simp only [List.mem_append, List.mem_cons] at hc
        rcases hc with hc | rfl | hc | rfl | hc
        · rw [(hall c (by simp [hc])).1] at hcw
          exact Bool.noConfusion hcw
        · exact absurd hcw (by decide)
        · rw [(hall c (by simp [hc])).1] at hcw
          exact Bool.noConfusion hcw
        · exact absurd hcw (by decide)
        · rw [(hall c (by simp [hc])).1] at hcw
          exact Bool.noConfusion hcw
    · have c1 : List.count '@' l = 0 :=
        List.count_eq_zero.mpr (fun h => (hall _ (by simp [h])).2 rfl)
      have c2 : List.count '@' d = 0 :=
        List.count_eq_zero.mpr (fun h => (hall _ (by simp [h])).2 rfl)
      have c3 : List.count '@' t = 0 :=
        List.count_eq_zero.mpr (fun h => (hall _ (by simp [h])).2 rfl)
      have c4 : List.count '@' ('.' :: t) = 0 := by
        rw [List.count_cons_of_ne (by decide), c3]
      rw [hv, List.count_append, List.count_cons_self, List.count_append, c1, c2, c4]
    · cases d with
      | nil => exact absurd rfl hd
      | cons y p1 =>
        simp only [List.drop_succ_cons, List.drop_zero, List.cons_append]
        have h1 : (p1 ++ '.' :: t).dropLast = p1 ++ '.' :: t.dropLast := by
          rw [List.dropLast_append_of_ne_nil _ (by simp), List.dropLast_cons_of_ne_nil ht]
        rw [h1]
        simp

/-! ## The number test against the numeric forms -/

theorem digit_not_ws (c : Char) (h : isDecimalDigit c = true) : isJsWhiteSpace c = false := by
  simp only [isDecimalDigit, Bool.and_eq_true, decide_eq_true_eq] at h
  simp only [isJsWhiteSpace, Bool.or_eq_false_iff, Bool.and_eq_false_iff, decide_eq_false_iff_not]
  omega

theorem hex_not_ws (c : Char) (h : isHexDigit c = true) : isJsWhiteSpace c = false := by
  simp only [isHexDigit, isDecimalDigit, Bool.or_eq_true, Bool.and_eq_true,
    decide_eq_true_eq] at h
  simp only [isJsWhiteSpace, Bool.or_eq_false_iff, Bool.and_eq_false_iff, decide_eq_false_iff_not]
  omega

theorem octal_not_ws (c : Char) (h : isOctalDigit c = true) : isJsWhiteSpace c = false := by
  simp only [isOctalDigit, Bool.and_eq_true, decide_eq_true_eq] at h
  simp only [isJsWhiteSpace, Bool.or_eq_false_iff, Bool.and_eq_false_iff, decide_eq_false_iff_not]
  omega

theorem binary_not_ws (c : Char) (h : isBinaryDigit c = true) : isJsWhiteSpace c = false := by
  simp only [isBinaryDigit, Bool.or_eq_true, decide_eq_true_eq] at h
  rcases h with rfl | rfl <;> decide

theorem digit_not_sign (c : Char) (h : isDecimalDigit c = true) :
    c ≠ '+' ∧ c ≠ '-' ∧ c ≠ '.' ∧ c ≠ 'e' ∧ c ≠ 'E' := by
  refine ⟨?_, ?_, ?_, ?_, ?_⟩ <;> (rintro rfl; exact absurd h (by decide))

theorem trimJs_decomp (l : List Char) :
    ∃ ws1 ws2 : List Char, l = ws1 ++ (trimJs l ++ ws2)
      ∧ (∀ c ∈ ws1, isJsWhiteSpace c = true) ∧ (∀ c ∈ ws2, isJsWhiteSpace c = true) := by
  refine ⟨l.takeWhile isJsWhiteSpace,
    (((l.dropWhile isJsWhiteSpace).reverse).takeWhile isJsWhiteSpace).reverse, ?_,
    takeWhile_holds _ _, ?_⟩
  · have h1 := List.takeWhile_append_dropWhile isJsWhiteSpace l
    have h2 := List.takeWhile_append_dropWhile isJsWhiteSpace (l.dropWhile isJsWhiteSpace).reverse
    have h3 : l.dropWhile isJsWhiteSpace
        = trimJs l ++ (((l.dropWhile isJsWhiteSpace).reverse).takeWhile isJsWhiteSpace).reverse := by
      unfold trimJs
      rw [← List.reverse_append, h2, List.reverse_reverse]
    rw [← h3, h1]
  · intro c hc
    exact takeWhile_holds _ _ c (List.mem_reverse.mp hc)

theorem trimJs_of_decomp (ws1 core ws2 : List Char)
    (h1 : ∀ c ∈ ws1, isJsWhiteSpace c = true) (h2 : ∀ c ∈ ws2, isJsWhiteSpace c = true)
    (hc : ∀ c ∈ core, isJsWhiteSpace c = false) :
    trimJs (ws1 ++ (core ++ ws2)) = core := by
  unfold trimJs
  cases core with
  | nil =>
    have h3 : (ws1 ++ ([] ++ ws2)).dropWhile isJsWhiteSpace = [] := by
      apply dropWhile_all
      intro c hcm
      simp only [List.nil_append, List.mem_append] at hcm
      rcases hcm with hcm | hcm
      · exact h1 c hcm
      · exact h2 c hcm
    rw [h3]
    rfl
  | cons a t =>
    have h3 : (ws1 ++ (a :: t ++ ws2)).dropWhile isJsWhiteSpace = a :: (t ++ ws2) :=
      dropWhile_append_stop _ ws1 _ a h1 (hc a (List.mem_cons_self _ _))
    rw [h3]
    have h4 : (a :: (t ++ ws2)).reverse = ws2.reverse ++ (a :: t).reverse := by
      rw [← List.reverse_append]
      rfl
    rw [h4]
    cases hr : (a :: t).reverse with
    | nil =>
      have := congrArg List.length hr
      simp at this
    | cons b u =>
      have hb : b ∈ a :: t := by
        apply List.mem_reverse.mp
        rw [hr]
        exact List.mem_cons_self _ _
      rw [dropWhile_append_stop _ ws2.reverse u b
        (fun c hcm => h2 c (List.mem_reverse.mp hcm)) (hc b hb)]
      rw [← hr, List.reverse_reverse]

theorem exponentOrEnd_iff (cs : List Char) :
    exponentOrEnd cs = true ↔ (cs = [] ∨ IsExponentPart cs) := by
  constructor
  · intro h
    cases cs with
    | nil => exact Or.inl rfl
    | cons c rest =>
      right
      simp only [exponentOrEnd, Bool.and_eq_true, Bool.or_eq_true, decide_eq_true_eq] at h
      obtain ⟨he, hrest⟩ := h
      cases rest with
      | nil => simp at hrest
      | cons s ds =>
        simp only at hrest
        by_cases hs : s = '+' ∨ s = '-'
        · rw [if_pos hs] at hrest
          simp only [Bool.and_eq_true, Bool.not_eq_true', List.isEmpty_eq_false,
            List.all_eq_true] at hrest
          refine ⟨c, [s], ds, rfl, he, ?_, hrest.1, hrest.2⟩
          rcases hs with rfl | rfl
          · exact Or.inr (Or.inl rfl)
          · exact Or.inr (Or.inr rfl)
        · rw [if_neg hs] at hrest
          refine ⟨c, [], s :: ds, rfl, he, Or.inl rfl, by simp, ?_⟩
          intro x hx
          exact List.all_eq_true.mp hrest x hx
  · rintro (rfl | ⟨e, s, ds, rfl, he, hs, hne, hds⟩)
    · rfl
    · have he2 : (decide (e = 'e') || decide (e = 'E')) = true := by simpa using he
      cases ds with
      | nil => exact absurd rfl hne
      | cons d0 ds1 =>
        have hd0 := digit_not_sign d0 (hds d0 (List.mem_cons_self _ _))
        rcases hs with rfl | rfl | rfl
        · simp only [exponentOrEnd, List.nil_append, he2, Bool.true_and]
          have hs2 : ¬ (decide (d0 = '+') || decide (d0 = '-')) = true := by
            simp [hd0.1, hd0.2.1]
          rw [if_neg hs2]
          exact List.all_eq_true.mpr hds
        · simp only [exponentOrEnd, List.cons_append, List.nil_append, he2, Bool.true_and]
          simp only [decide_True, Bool.true_or, if_true, Bool.and_eq_true, Bool.not_eq_true',
            List.isEmpty_eq_false]
          exact ⟨by simp, List.all_eq_true.mpr hds⟩
        · simp only [exponentOrEnd, List.cons_append, List.nil_append, he2, Bool.true_and]
          simp only [decide_True, Bool.or_true, if_true, Bool.and_eq_true, Bool.not_eq_true',
            List.isEmpty_eq_false]
          exact ⟨by simp, List.all_eq_true.mpr hds⟩

theorem isStrUnsignedDecimalLiteral_iff (cs : List Char) :
    isStrUnsignedDecimalLiteral cs = true
      ↔ (cs = "Infinity".toList ∨ IsUnsignedDecimalForm cs) := by
  unfold isStrUnsignedDecimalLiteral
  simp only [Bool.or_eq_true, decide_eq_true_eq]
  have hsplit := List.takeWhile_append_dropWhile isDecimalDigit cs
  have hint := takeWhile_holds isDecimalDigit cs
  constructor
  · rintro (h | h)
    · exact Or.inl h
    · right
      cases hD : cs.dropWhile isDecimalDigit with
      | nil =>
        rw [hD] at h hsplit
        simp only [Bool.not_eq_true', List.isEmpty_eq_false] at h
        refine ⟨cs.takeWhile isDecimalDigit, [], [], ?_, hint, Or.inl ⟨rfl, ?_⟩, Or.inl rfl⟩
        · simpa using hsplit.symm
        · simpa using h
      | cons c r =>
        rw [hD] at h hsplit
        simp only at h
        by_cases hc : c = '.'
        · subst hc
          simp only [if_true, Bool.and_eq_true, Bool.or_eq_true, Bool.not_eq_true',
            List.isEmpty_eq_false] at h
          have hr := List.takeWhile_append_dropWhile isDecimalDigit r
          refine ⟨cs.takeWhile isDecimalDigit, '.' :: r.takeWhile isDecimalDigit,
            r.dropWhile isDecimalDigit, ?_, hint,
            Or.inr ⟨r.takeWhile isDecimalDigit, rfl, takeWhile_holds _ _, ?_⟩,
            (exponentOrEnd_iff _).mp h.2⟩
          · rw [List.cons_append, hr]
            exact hsplit.symm
          · rcases h.1 with h1 | h1
            · exact Or.inl (by simpa using h1)
            · exact Or.inr (by simpa using h1)
        · simp only [hc, if_false, Bool.and_eq_true, Bool.not_eq_true',
            List.isEmpty_eq_false] at h
          refine ⟨cs.takeWhile isDecimalDigit, [], c :: r, ?_, hint,
            Or.inl ⟨rfl, by simpa using h.1⟩, ?_⟩
          · simpa using hsplit.symm
          · rcases (exponentOrEnd_iff _).mp h.2 with h2 | h2
            · exact absurd h2 (by simp)
            · exact Or.inr h2
  · rintro (h | ⟨int, frac, exp, rfl, hi, hf, he⟩)
    · exact Or.inl h
    · right
      have hexp : exponentOrEnd exp = true := (exponentOrEnd_iff exp).mpr he
      have hstop : exp = [] ∨ ∃ e rest, exp = e :: rest ∧ isDecimalDigit e = false := by
        rcases he with he | ⟨e, s, ds, rfl, he2, _, _, _⟩
        · exact Or.inl he
        · refine Or.inr ⟨e, s ++ ds, rfl, ?_⟩
          rcases he2 with rfl | rfl <;> decide
      rcases hf with ⟨rfl, hne⟩ | ⟨f, rfl, hfd, hne⟩
      · rcases hstop with rfl | ⟨e, rest, rfl, hed⟩
        · simp only [List.append_nil]
          rw [takeWhile_all _ _ hi, dropWhile_all _ _ hi]
          simpa using hne
        · simp only [List.nil_append]
          rw [takeWhile_append_stop _ int rest e hi hed, dropWhile_append_stop _ int rest e hi hed]
          have hedot : e ≠ '.' := by
            rcases he with he | ⟨e2, s, ds, h1, he2, _, _, _⟩
            · exact absurd he (by simp)
            · obtain ⟨h3, _⟩ := List.cons.inj h1
              subst h3
              rcases he2 with rfl | rfl <;> decide
          simp only [hedot, if_false, Bool.and_eq_true, Bool.not_eq_true',
            List.isEmpty_eq_false]
          exact ⟨by simpa using hne, hexp⟩
      · have hdot : isDecimalDigit '.' = false := by decide
        simp only [List.cons_append]
        rw [takeWhile_append_stop _ int (f ++ exp) '.' hi hdot,
          dropWhile_append_stop _ int (f ++ exp) '.' hi hdot]
        simp only [if_true, Bool.and_eq_true, Bool.or_eq_true, Bool.not_eq_true',
          List.isEmpty_eq_false]
        have htk : (f ++ exp).takeWhile isDecimalDigit = f
            ∧ (f ++ exp).dropWhile isDecimalDigit = exp := by
          rcases hstop with rfl | ⟨e, rest, rfl, hed⟩
          · simp only [List.append_nil]
            exact ⟨takeWhile_all _ _ hfd, dropWhile_all _ _ hfd⟩
          · exact ⟨takeWhile_append_stop _ f rest e hfd hed,
              dropWhile_append_stop _ f rest e hfd hed⟩
        rw [htk.1, htk.2]
        refine ⟨?_, hexp⟩
        rcases hne with h1 | h1
        · exact Or.inl (by simpa using h1)
        · exact Or.inr (by simpa using h1)

theorem unsignedDecimalForm_head (cs : List Char) (h : IsUnsignedDecimalForm cs) :
    ∃ c r, cs = c :: r ∧ c ≠ '+' ∧ c ≠ '-' := by
  obtain ⟨int, frac, exp, rfl, hi, hf, _⟩ := h
  cases int with
  | nil =>
    rcases hf with ⟨_, hne⟩ | ⟨f, rfl, _, _⟩
    · exact absurd rfl hne
    · exact ⟨'.', f ++ exp, rfl, by decide, by decide⟩
  | cons d ds =>
    have hd := digit_not_sign d (hi d (List.mem_cons_self _ _))
    exact ⟨d, ds ++ (frac ++ exp), rfl, hd.1, hd.2.1⟩

theorem isStrDecimalLiteral_iff (cs : List Char) :
    isStrDecimalLiteral cs = true ↔ (IsDecimalForm cs ∨ IsInfinityForm cs) := by
  constructor
  · intro h
    cases cs with
    | nil => simp [isStrDecimalLiteral] at h
    | cons c r =>
      simp only [isStrDecimalLiteral] at h
      by_cases hc : c = '+' ∨ c = '-'
      · have hc2 : (decide (c = '+') || decide (c = '-')) = true := by simpa using hc
        rw [if_pos hc2] at h
        rcases (isStrUnsignedDecimalLiteral_iff r).mp h with h1 | h1
        · right
          subst h1
          rcases hc with rfl | rfl
          · exact Or.inr (Or.inl rfl)
          · exact Or.inr (Or.inr rfl)
        · left
          refine ⟨[c], r, rfl, ?_, h1⟩
          rcases hc with rfl | rfl
          · exact Or.inr (Or.inl rfl)
          · exact Or.inr (Or.inr rfl)
      · have hc2 : ¬ (decide (c = '+') || decide (c = '-')) = true := by simpa using hc
        rw [if_neg hc2] at h
        rcases (isStrUnsignedDecimalLiteral_iff (c :: r)).mp h with h1 | h1
        · exact Or.inr (Or.inl h1)
        · exact Or.inl ⟨[], c :: r, rfl, Or.inl rfl, h1⟩
  · rintro (⟨sign, body, rfl, hs, hb⟩ | h)
    · obtain ⟨c, r, rfl, hc1, hc2⟩ := unsignedDecimalForm_head body hb
      have hu := (isStrUnsignedDecimalLiteral_iff (c :: r)).mpr (Or.inr hb)
      rcases hs with rfl | rfl | rfl
      · simp only [List.nil_append, isStrDecimalLiteral]
        have hc3 : ¬ (decide (c = '+') || decide (c = '-')) = true := by simp [hc1, hc2]
        rw [if_neg hc3]
        exact hu
      · simp only [List.cons_append, List.nil_append, isStrDecimalLiteral]
        simpa using hu
      · simp only [List.cons_append, List.nil_append, isStrDecimalLiteral]
        simpa using hu
    · rcases h with rfl | rfl | rfl <;> decide

theorem isNonDecimalIntegerLiteral_iff (cs : List Char) :
    isNonDecimalIntegerLiteral cs = true ↔ IsNonDecimalForm cs := by
  constructor
  · intro h
    match cs, h with
    | z :: x :: d :: ds, h =>
      simp only [isNonDecimalIntegerLiteral, Bool.and_eq_true, Bool.or_eq_true,
        decide_eq_true_eq, List.all_eq_true] at h
      obtain ⟨rfl, h2⟩ := h
      refine ⟨x, d :: ds, rfl, by simp, ?_⟩
      rcases h2 with (h2 | h2) | h2
      · exact Or.inl ⟨h2.1, h2.2⟩
      · exact Or.inr (Or.inl ⟨h2.1, h2.2⟩)
      · exact Or.inr (Or.inr ⟨h2.1, h2.2⟩)
  · rintro ⟨x, ds, rfl, hne, h⟩
    cases ds with
    | nil => exact absurd rfl hne
    | cons d ds1 =>
      simp only [isNonDecimalIntegerLiteral, Bool.and_eq_true, Bool.or_eq_true,
        decide_eq_true_eq, List.all_eq_true, true_and]
      rcases h with h | h | h
      · exact Or.inl (Or.inl ⟨h.1, h.2⟩)
      · exact Or.inl (Or.inr ⟨h.1, h.2⟩)
      · exact Or.inr ⟨h.1, h.2⟩

theorem decimalForm_not_ws (cs : List Char) (h : IsDecimalForm cs) :
    ∀ c ∈ cs, isJsWhiteSpace c = false := by
  obtain ⟨sign, body, rfl, hs, int, frac, exp, rfl, hi, hf, he⟩ := h
  intro c hc
  simp only [List.mem_append] at hc
  rcases hc with hc | hc | hc | hc
  · rcases hs with rfl | rfl | rfl
    · simp at hc
    · simp only [List.mem_singleton] at hc
      subst hc
      decide
    · simp only [List.mem_singleton] at hc
      subst hc
      decide
  · exact digit_not_ws c (hi c hc)
  · rcases hf with ⟨rfl, _⟩ | ⟨f, rfl, hfd, _⟩
    · simp at hc
    · simp only [List.mem_cons] at hc
      rcases hc with rfl | hc
      · decide
      · exact digit_not_ws c (hfd c hc)
  · rcases he with rfl | ⟨e, s, ds, rfl, he2, hs2, _, hds⟩
    · simp at hc
    · simp only [List.mem_cons, List.mem_append] at hc
      rcases hc with rfl | hc | hc
      · rcases he2 with rfl | rfl <;> decide
      · rcases hs2 with rfl | rfl | rfl
        · simp at hc
        · simp only [List.mem_singleton] at hc
          subst hc
          decide
        · simp only [List.mem_singleton] at hc
          subst hc
          decide
      · exact digit_not_ws c (hds c hc)

theorem infinityForm_not_ws (cs : List Char) (h : IsInfinityForm cs) :
    ∀ c ∈ cs, isJsWhiteSpace c = false := by
  rcases h with rfl | rfl | rfl <;> decide

theorem nonDecimalForm_not_ws (cs : List Char) (h : IsNonDecimalForm cs) :
    ∀ c ∈ cs, isJsWhiteSpace c = false := by
  obtain ⟨x, ds, rfl, _, h⟩ := h
  intro c hc
  simp only [List.mem_cons] at hc
  rcases hc with rfl | rfl | hc
  · decide
  · rcases h with ⟨hx, _⟩ | ⟨hx, _⟩ | ⟨hx, _⟩ <;> rcases hx with rfl | rfl <;> decide
  · rcases h with ⟨_, hd⟩ | ⟨_, hd⟩ | ⟨_, hd⟩
    · exact hex_not_ws c (hd c hc)
    · exact octal_not_ws c (hd c hc)
    · exact binary_not_ws c (hd c hc)

/-- The number test of the code accepts exactly the numeric forms: `Number`
does not give `NaN` exactly on them. -/
theorem numberIsNaN_eq_false_iff (v : String) : numberIsNaN v = false ↔ IsJsNumeric v := by
  unfold numberIsNaN
  simp only [Bool.not_eq_false', Bool.or_eq_true, List.isEmpty_iff]
  constructor
  · intro h
    obtain ⟨ws1, ws2, hdec, h1, h2⟩ := trimJs_decomp v.toList
    refine ⟨ws1, trimJs v.toList, ws2, hdec, h1, h2, ?_⟩
    rcases h with (h | h) | h
    · exact Or.inl h
    · rcases (isStrDecimalLiteral_iff _).mp h with h3 | h3
      · exact Or.inr (Or.inl h3)
      · exact Or.inr (Or.inr (Or.inl h3))
    · exact Or.inr (Or.inr (Or.inr ((isNonDecimalIntegerLiteral_iff _).mp h)))
  · rintro ⟨ws1, core, ws2, hv, h1, h2, hcore⟩
    have hnw : ∀ c ∈ core, isJsWhiteSpace c = false := by
      rcases hcore with rfl | h | h | h
      · simp
      · exact decimalForm_not_ws core h
      · exact infinityForm_not_ws core h
      · exact nonDecimalForm_not_ws core h
    rw [hv, trimJs_of_decomp ws1 core ws2 h1 h2 hnw]
    rcases hcore with h | h | h | h
    · exact Or.inl (Or.inl h)
    · exact Or.inl (Or.inr ((isStrDecimalLiteral_iff core).mpr (Or.inl h)))
    · exact Or.inl (Or.inr ((isStrDecimalLiteral_iff core).mpr (Or.inr h)))
    · exact Or.inr ((isNonDecimalIntegerLiteral_iff core).mpr h)

/-! ## init.js: the claims -/

/-- C11 as stated fails: the empty value matches none of the five patterns of
the specification (it has not the standard decimal form, is none of the
boolean words, has no `http` prefix, no email shape and no dotted-quad shape),
yet its inferred type is `number`, not `string`. The same holds for the blank
value and for `0x1F`. -/
theorem inferSchemaForValue_type_counterexample :
    ¬ IsDecimalForm "".toList ∧ ¬ IsBooleanWord "" ∧ ¬ HasHttpPrefix ""
      ∧ ¬ IsEmailShape "" ∧ ¬ IsDottedQuad ""
      ∧ (inferSchemaForValue "FOO" "").type = some "number"
      ∧ (inferSchemaForValue "FOO" " ").type = some "number"
      ∧ ¬ IsDecimalForm "0x1F".toList
      ∧ (inferSchemaForValue "FOO" "0x1F").type = some "number" := by
  refine ⟨?_, ?_, ?_, ?_, ?_, ?_, ?_, ?_, ?_⟩
  · intro h
    have h2 := (isStrDecimalLiteral_iff _).mpr (Or.inl h)
    exact absurd h2 (by decide)
  · unfold IsBooleanWord
    decide
  · intro h
    exact absurd ((matchesHttpPrefix_iff _).mpr h) (by decide)
  · intro h
    exact absurd ((matchesEmail_iff _).mpr h) (by decide)
  · intro h
    exact absurd ((matchesIpAddress_iff _).mpr h) (by decide)
  · decide
  · decide
  · intro h
    have h2 := (isStrDecimalLiteral_iff _).mpr (Or.inl h)
    exact absurd h2 (by decide)
  · decide

/-- C11, amended: the inferred type is the type of the first rule that matches,
in the order number, boolean, url, email, ipaddress, string, where the number
rule accepts the values `Number` does not turn into `NaN`: every value of the
standard decimal form, and also the empty or blank value, `Infinity` and the
integer literals in base 16, 8 and 2, each with optional white space around
it. Such a value gets `number` even when it is a boolean word (`1` and `0` are
numbers); a value that is no such number and lower-cases to one of `true,
false, yes, no, 0, 1` gets `boolean` (`yes` is a boolean); then come the
`http` prefix, the email shape and the dotted quad; a value that matches none
of the five rules gets `string`. -/
theorem inferSchemaForValue_type (key value : String) :
    (IsJsNumeric value → (inferSchemaForValue key value).type = some "number")
      ∧ (¬ IsJsNumeric value → IsBooleanWord value →
          (inferSchemaForValue key value).type = some "boolean")
      ∧ (¬ IsJsNumeric value → ¬ IsBooleanWord value → HasHttpPrefix value →
          (inferSchemaForValue key value).type = some "url")
      ∧ (¬ IsJsNumeric value → ¬ IsBooleanWord value → ¬ HasHttpPrefix value →
          IsEmailShape value → (inferSchemaForValue key value).type = some "email")
      ∧ (¬ IsJsNumeric value → ¬ IsBooleanWord value → ¬ HasHttpPrefix value →
          ¬ IsEmailShape value → IsDottedQuad value →
          (inferSchemaForValue key value).type = some "ipaddress")
      ∧ (¬ IsJsNumeric value → ¬ IsBooleanWord value → ¬ HasHttpPrefix value →
          ¬ IsEmailShape value → ¬ IsDottedQuad value →
          (inferSchemaForValue key value).type = some "string")
      ∧ (IsDecimalForm value.toList → IsJsNumeric value)
      ∧ (inferSchemaForValue key "1").type = some "number"
      ∧ (inferSchemaForValue key "0").type = some "number"
      ∧ (inferSchemaForValue key "yes").type = some "boolean" := by
  have hn : ¬ IsJsNumeric value → numberIsNaN value = true := by
    intro h
    cases hv : numberIsNaN value with
    | true => rfl
    | false => exact absurd ((numberIsNaN_eq_false_iff value).mp hv) h
  have hb : ¬ IsBooleanWord value →
      inferredBooleanWords.contains (toLowerCase value) = false := by
    intro h
    cases hv : inferredBooleanWords.contains (toLowerCase value) with
    | false => rfl
    | true => exact absurd ((inferredBooleanWords_iff value).mp hv) h
  have hu : ¬ HasHttpPrefix value → matchesHttpPrefix value = false := by
    intro h
    cases hv : matchesHttpPrefix value with
    | false => rfl
    | true => exact absurd ((matchesHttpPrefix_iff value).mp hv) h
  have he : ¬ IsEmailShape value → matchesEmail value = false := by
    intro h
    cases hv : matchesEmail value with
    | false => rfl
    | true => exact absurd ((matchesEmail_iff value).mp hv) h
  have hq : ¬ IsDottedQuad value → matchesIpAddress value = false := by
    intro h
    cases hv : matchesIpAddress value with
    | false => rfl
    | true => exact absurd ((matchesIpAddress_iff value).mp hv) h
  refine ⟨?_, ?_, ?_, ?_, ?_, ?_, ?_, ?_, ?_, ?_⟩
  · intro h1
    rw [inferSchemaForValue_type_eq, (numberIsNaN_eq_false_iff value).mpr h1]
    rfl
  · intro h1 h2
    rw [inferSchemaForValue_type_eq, hn h1, (inferredBooleanWords_iff value).mpr h2]
    rfl
  · intro h1 h2 h3
    rw [inferSchemaForValue_type_eq, hn h1, hb h2, (matchesHttpPrefix_iff value).mpr h3]
    rfl
  · intro h1 h2 h3 h4
    rw [inferSchemaForValue_type_eq, hn h1, hb h2, hu h3, (matchesEmail_iff value).mpr h4]
    rfl
  · intro h1 h2 h3 h4 h5
    rw [inferSchemaForValue_type_eq, hn h1, hb h2, hu h3, he h4,
      (matchesIpAddress_iff value).mpr h5]
    rfl
  · intro h1 h2 h3 h4 h5
    rw [inferSchemaForValue_type_eq, hn h1, hb h2, hu h3, he h4, hq h5]
    rfl
  · intro h1
    exact ⟨[], value.toList, [], by simp, by simp, by simp, Or.inr (Or.inl h1)⟩
  · rw [inferSchemaForValue_type_eq]
    decide
  · rw [inferSchemaForValue_type_eq]
    decide
  · rw [inferSchemaForValue_type_eq]
    decide

/-- An instance of the amended C11 for each of the six types. -/
theorem inferSchemaForValue_type_witness :
    (inferSchemaForValue "K" "-1.5e3").type = some "number"
      ∧ (inferSchemaForValue "K" "TRUE").type = some "boolean"
      ∧ (inferSchemaForValue "K" "https://x.com").type = some "url"
      ∧ (inferSchemaForValue "K" "a@b.c").type = some "email"
      ∧ (inferSchemaForValue "K" "10.0.0.1x").type = some "string"
      ∧ (inferSchemaForValue "K" "256.1.1.1").type = some "ipaddress" :=
  ⟨(inferSchemaForValue_type "K" "-1.5e3").1
      ((numberIsNaN_eq_false_iff _).mp (by decide)),
   (inferSchemaForValue_type "K" "TRUE").2.1
      (fun h => absurd ((numberIsNaN_eq_false_iff _).mpr h) (by decide))
      ((inferredBooleanWords_iff _).mp (by decide)),
   (inferSchemaForValue_type "K" "https://x.com").2.2.1
      (fun h => absurd ((numberIsNaN_eq_false_iff _).mpr h) (by decide))
      (fun h => absurd ((inferredBooleanWords_iff _).mpr h) (by decide))
      ((matchesHttpPrefix_iff _).mp (by decide)),
   (inferSchemaForValue_type "K" "a@b.c").2.2.2.1
      (fun h => absurd ((numberIsNaN_eq_false_iff _).mpr h) (by decide))
      (fun h => absurd ((inferredBooleanWords_iff _).mpr h) (by decide))
      (fun h => absurd ((matchesHttpPrefix_iff _).mpr h) (by decide))
      ((matchesEmail_iff _).mp (by decide)),
   (inferSchemaForValue_type "K" "10.0.0.1x").2.2.2.2.2.1
      (fun h => absurd ((numberIsNaN_eq_false_iff _).mpr h) (by decide))
      (fun h => absurd ((inferredBooleanWords_iff _).mpr h) (by decide))
      (fun h => absurd ((matchesHttpPrefix_iff _).mpr h) (by decide))
      (fun h => absurd ((matchesEmail_iff _).mpr h) (by decide))
      (fun h => absurd ((matchesIpAddress_iff _).mpr h) (by decide)),
   (inferSchemaForValue_type "K" "256.1.1.1").2.2.2.2.1
      (fun h => absurd ((numberIsNaN_eq_false_iff _).mpr h) (by decide))
      (fun h => absurd ((inferredBooleanWords_iff _).mpr h) (by decide))
      (fun h => absurd ((matchesHttpPrefix_iff _).mpr h) (by decide))
      (fun h => absurd ((matchesEmail_iff _).mpr h) (by decide))
      ((matchesIpAddress_iff _).mp (by decide))⟩

/-- C12: on a string the `boolean` check of `validateType` returns, and it
passes exactly when the lower-cased value is one of `true, false, 0, 1`. So a
value that lower-cases to `yes` or `no` is typed `boolean` by the inferencer
and rejected by the `boolean` check of the validator. -/
theorem validateType_boolean (h : Host) (key value : String) :
    (∃ b, validateType h (JsValue.string value) "boolean" = Except.ok b)
      ∧ (validateType h (JsValue.string value) "boolean" = Except.ok true
          ↔ toLowerCase value ∈ ["true", "false", "0", "1"])
      ∧ (toLowerCase value = "yes" ∨ toLowerCase value = "no" →
          (inferSchemaForValue key value).type = some "boolean"
            ∧ validateType h (JsValue.string value) "boolean" = Except.ok false) := by
  have hv : validateType h (JsValue.string value) "boolean"
      = Except.ok (["true", "false", "0", "1"].contains (toLowerCase value)) := by
    unfold validateType
    have ht : toLowerCase "boolean" = "boolean" := by decide
    simp only [ht]
    rfl
  refine ⟨⟨_, hv⟩, ?_, ?_⟩
  · rw [hv]
    constructor
    · intro h1
      have h2 := Except.ok.inj h1
      simpa using h2
    · intro h1
      have h2 : ["true", "false", "0", "1"].contains (toLowerCase value) = true := by
        simpa using h1
      rw [h2]
  · intro h1
    obtain ⟨f1, f2, f3⟩ := yes_no_facts value h1
    constructor
    · rw [inferSchemaForValue_type_eq]
      simp only [f1, f2, Bool.not_true, Bool.false_eq_true, if_false, if_true]
    · rw [hv, f3]

/-- An instance of C12: the value `Yes`. -/
theorem validateType_boolean_witness :
    (inferSchemaForValue "FLAG" "Yes").type = some "boolean"
      ∧ validateType sampleHost (JsValue.string "Yes") "boolean" = Except.ok false :=
  (validateType_boolean sampleHost "FLAG" "Yes").2.2 (Or.inl (by decide))

/-- C13: the inferred entry has `sensitive = true` exactly when the key
contains one of `SECRET`, `PASSWORD`, `KEY`, `TOKEN`, `AUTH`, and no
`sensitive` field otherwise; the value plays no part. `DB_PASSWORD` is
sensitive, `DB_HOST` is not. -/
theorem inferSchemaForValue_sensitive (key value : String) :
    ((inferSchemaForValue key value).sensitive = some true
        ↔ ∃ w ∈ ["SECRET", "PASSWORD", "KEY", "TOKEN", "AUTH"], w.toList <:+: key.toList)
      ∧ ((¬ ∃ w ∈ ["SECRET", "PASSWORD", "KEY", "TOKEN", "AUTH"], w.toList <:+: key.toList) →
          (inferSchemaForValue key value).sensitive = none)
      ∧ (∀ other : String,
          (inferSchemaForValue key other).sensitive = (inferSchemaForValue key value).sensitive)
      ∧ (inferSchemaForValue "DB_PASSWORD" value).sensitive = some true
      ∧ (inferSchemaForValue "DB_HOST" value).sensitive = none := by
  refine ⟨?_, ?_, ?_, ?_, ?_⟩
  · rw [inferSchemaForValue_sensitive_eq, ← looksSensitive_iff]
    cases looksSensitive key <;> simp
  · intro h1
    rw [← looksSensitive_iff] at h1
    rw [inferSchemaForValue_sensitive_eq]
    simp [h1]
  · intro other
    rw [inferSchemaForValue_sensitive_eq, inferSchemaForValue_sensitive_eq]
  · rw [inferSchemaForValue_sensitive_eq]
    decide
  · rw [inferSchemaForValue_sensitive_eq]
    decide

/-- An instance of C13: the key `API_HOST` contains none of the five words. -/
theorem inferSchemaForValue_sensitive_witness :
    (inferSchemaForValue "API_HOST" "x").sensitive = none :=
  (inferSchemaForValue_sensitive "API_HOST" "x").2.1 (by
    rw [← looksSensitive_iff]
    decide)

/-- C14: the inferred entry has `required = false` and the observed value as
`default` exactly when the key contains `DEFAULT` or `FALLBACK`; for every
other key it has `required = true` and no default. Both fields are functions
of the key and the value alone, whatever type is inferred. -/
theorem inferSchemaForValue_required_default (key value : String) :
    (((inferSchemaForValue key value).required = some false
          ∧ (inferSchemaForValue key value).default = some value)
        ↔ ("DEFAULT".toList <:+: key.toList ∨ "FALLBACK".toList <:+: key.toList))
      ∧ (¬ ("DEFAULT".toList <:+: key.toList ∨ "FALLBACK".toList <:+: key.toList) →
          (inferSchemaForValue key value).required = some true
            ∧ (inferSchemaForValue key value).default = none)
      ∧ (∀ other : String,
          (inferSchemaForValue key other).required = (inferSchemaForValue key value).required
            ∧ ((inferSchemaForValue key other).default = some other
                ↔ (inferSchemaForValue key value).default = some value)) := by
  refine ⟨?_, ?_, ?_⟩
  · rw [inferSchemaForValue_required_eq, inferSchemaForValue_default_eq, ← namesDefault_iff]
    cases namesDefault key <;> simp
  · intro h1
    rw [← namesDefault_iff] at h1
    rw [inferSchemaForValue_required_eq, inferSchemaForValue_default_eq]
    simp [h1]
  · intro other
    simp only [inferSchemaForValue_required_eq, inferSchemaForValue_default_eq]
    cases namesDefault key <;> simp

/-- An instance of C14: the key `PORT` contains neither word. -/
theorem inferSchemaForValue_required_default_witness :
    (inferSchemaForValue "PORT" "8080").required = some true
      ∧ (inferSchemaForValue "PORT" "8080").default = none :=
  (inferSchemaForValue_required_default "PORT" "8080").2.1 (by
    rw [← namesDefault_iff]
    decide)

/-! ## generateExample -/

theorem lookup_foldl_setProp_not_mem {α β : Type} (f : String → α → β)
    (entries : List (String × α)) (acc : Obj β) (k : String)
    (hk : k ∉ objectKeys entries) :
    (entries.foldl (fun m e => setProp m e.1 (f e.1 e.2)) acc).lookup k = acc.lookup k := by
  induction entries generalizing acc with
  | nil => rfl
  | cons e rest ih =>
    simp only [objectKeys, List.map_cons, List.mem_cons, not_or] at hk
    simp only [List.foldl_cons]
    rw [ih _ hk.2, lookup_setProp_ne _ _ _ _ hk.1]

/-- A loop that assigns to the key of every entry of an object a value
computed from the entry leaves under each key the value of its entry. -/
theorem lookup_foldl_setProp {α β : Type} (f : String → α → β)
    (entries : List (String × α)) (acc : Obj β) (k : String) (a : α)
    (hn : (objectKeys entries).Nodup) (hm : (k, a) ∈ entries) (hp : k ≠ "__proto__") :
    (entries.foldl (fun m e => setProp m e.1 (f e.1 e.2)) acc).lookup k = some (f k a) := by
  induction entries generalizing acc with
  | nil => simp at hm
  | cons e rest ih =>
    simp only [objectKeys, List.map_cons, List.nodup_cons] at hn
    simp only [List.foldl_cons]
    rcases List.mem_cons.mp hm with h1 | h1
    · subst h1
      rw [lookup_foldl_setProp_not_mem f rest _ k hn.1]
      exact lookup_setProp_self _ _ _ hp
    · exact ih _ hn.2 h1

/-- For a key that is not a name inherited from `Object.prototype`, the value
assigned for a schema entry is the one the amended specification gives. -/
theorem exampleForEntry_eq_spec (envVars : Obj String) (key : String) (d : FieldSpec)
    (hk : key ∉ objectPrototypeKeys) :
    exampleForEntry envVars key d = JsValue.string (specExample envVars key d) := by
  have tail : (if jsIn key envVars then
        (if isSensitiveLooking key then JsValue.string mask else getProp envVars key)
      else JsValue.string ("YOUR_" ++ key ++ "_HERE"))
      = JsValue.string (match envVars.lookup key with
          | some v => if isSensitiveLooking key then mask else v
          | none => "YOUR_" ++ key ++ "_HERE") := by
    rw [jsIn_eq_hasOwn_of_not_inherited envVars key hk]
    cases hl : envVars.lookup key with
    | none =>
      rw [hasOwn_eq_false_of_lookup envVars key hl]
      simp
    | some v =>
      rw [(hasOwn_iff key envVars).mpr (mem_objectKeys_of_lookup envVars key v hl),
        getProp_of_lookup envVars key v hl]
      by_cases hs : isSensitiveLooking key = true <;> simp [hs]
  have rest : (match d.enum with
        | some (first :: _) => JsValue.string first
        | _ =>
          if d.sensitive = some true then JsValue.string mask
          else if jsIn key envVars then
            (if isSensitiveLooking key then JsValue.string mask else getProp envVars key)
          else JsValue.string ("YOUR_" ++ key ++ "_HERE"))
      = JsValue.string (match d.enum with
          | some (first :: _) => first
          | _ =>
            if d.sensitive = some true then mask
            else
              match envVars.lookup key with
              | some v => if isSensitiveLooking key then mask else v
              | none => "YOUR_" ++ key ++ "_HERE") := by
    rcases he : d.enum with _ | (_ | ⟨first, more⟩)
    · by_cases hs : d.sensitive = some true
      · simp [hs]
      · simp only [hs, if_false]
        exact tail
    · by_cases hs : d.sensitive = some true
      · simp [hs]
      · simp only [hs, if_false]
        exact tail
    · rfl
  unfold exampleForEntry specExample
  rcases hd : d.default with _ | dv
  · simp only [truthyString]
    exact rest
  · by_cases hdv : dv = ""
    · simp only [truthyString, hdv, if_true, ne_eq, not_true_eq_false, if_false]
      exact rest
    · simp [truthyString, hdv]

/-! ## generateExample: the claim -/

/-- C15 as stated fails: the key `AUTH_URL` is sensitive by the rule of the
inferencer, and `generateExample` returns its observed value unmasked, without
a schema and with a schema entry that sets nothing. -/
theorem generateExample_auth_counterexample :
    looksSensitive "AUTH_URL" = true
      ∧ generateExample [("AUTH_URL", "http://x")] none
          = [("AUTH_URL", JsValue.string "http://x")]
      ∧ generateExample [("AUTH_URL", "http://x")] (some [("AUTH_URL", {})])
          = [("AUTH_URL", JsValue.string "http://x")] := by
  decide

/-- C15, amended: with a schema, every schema key that is not a name inherited
from `Object.prototype` gets the first applicable of: the default when one is
set and not empty; the first entry of the enum; the mask when the entry is
sensitive; when the key is in the configuration, the observed value, masked
exactly when the key contains one of `SECRET`, `PASSWORD`, `KEY`, `TOKEN`; the
placeholder `YOUR_<KEY>_HERE`. Without a schema, every configuration key other
than `__proto__` gets the mask when it contains one of those four words and
the observed value otherwise. -/
theorem generateExample_values (envVars : Obj String) :
    (∀ (schema : Obj FieldSpec) (k : String) (d : FieldSpec),
        (objectKeys schema).Nodup → (k, d) ∈ schema → k ∉ objectPrototypeKeys →
        (generateExample envVars (some schema)).lookup k
          = some (JsValue.string (specExample envVars k d)))
      ∧ (∀ (k v : String),
        (objectKeys envVars).Nodup → (k, v) ∈ envVars → k ≠ "__proto__" →
        (generateExample envVars none).lookup k
          = some (JsValue.string (if isSensitiveLooking k then mask else v)))
      ∧ (∀ k : String, isSensitiveLooking k = true
          ↔ ∃ w ∈ ["SECRET", "PASSWORD", "KEY", "TOKEN"], w.toList <:+: k.toList) := by
  refine ⟨?_, ?_, isSensitiveLooking_iff⟩
  · intro schema k d hn hm hk
    have h1 := lookup_foldl_setProp (fun key d => exampleForEntry envVars key d) schema []
      k d hn hm (not_proto_of_not_inherited k hk)
    simp only [generateExample]
    rw [h1]
    exact congrArg some (exampleForEntry_eq_spec envVars k d hk)
  · intro k v hn hm hp
    have h1 := lookup_foldl_setProp
      (fun key value => if isSensitiveLooking key then JsValue.string mask
        else JsValue.string value) envVars [] k v hn hm hp
    simp only [generateExample]
    rw [h1]
    by_cases hs : isSensitiveLooking k = true <;> simp [hs]

/-- An instance of the amended C15: a schema with a default, an enum, a
sensitive entry, an observed key and a key that is nowhere; and a
configuration without a schema. -/
theorem generateExample_values_witness :
    (generateExample [("HOST", "h"), ("API_KEY", "k")]
        (some [("MODE", { default := some "dev", enum := some ["a", "b"] }),
               ("LEVEL", { enum := some ["a", "b"], sensitive := some true }),
               ("PIN", { sensitive := some true }),
               ("HOST", {}), ("API_KEY", {}), ("OTHER", {})])).lookup "OTHER"
        = some (JsValue.string "YOUR_OTHER_HERE")
      ∧ (generateExample [("HOST", "h"), ("API_KEY", "k")] none).lookup "API_KEY"
        = some (JsValue.string "********") :=
  ⟨(generateExample_values [("HOST", "h"), ("API_KEY", "k")]).1
      [("MODE", { default := some "dev", enum := some ["a", "b"] }),
       ("LEVEL", { enum := some ["a", "b"], sensitive := some true }),
       ("PIN", { sensitive := some true }),
       ("HOST", {}), ("API_KEY", {}), ("OTHER", {})]
      "OTHER" {} (by decide) (by decide) (by decide),
   (generateExample_values [("HOST", "h"), ("API_KEY", "k")]).2.1
      "API_KEY" "k" (by decide) (by decide) (by decide)⟩

/-! ## Concrete runs -/

theorem compareEnvFiles_sample :
    compareEnvFiles [("A", "1"), ("B", "2"), ("C", "3")] [("B", "2"), ("C", "4"), ("D", "5")]
      = ⟨[("A", JsValue.string "1")], [("D", JsValue.string "5")],
         [("C", ⟨JsValue.string "3", JsValue.string "4"⟩)],
         [("B", JsValue.string "2")]⟩ := by
  decide

theorem numberIsNaN_samples :
    numberIsNaN "1" = false ∧ numberIsNaN " 1.5e3 " = false ∧ numberIsNaN "abc" = true
      ∧ numberIsNaN "" = false ∧ numberIsNaN "0x1F" = false ∧ numberIsNaN "-0x1F" = true
      ∧ numberIsNaN "." = true ∧ numberIsNaN "5." = false ∧ numberIsNaN "1e" = true
      ∧ numberIsNaN "-Infinity" = false ∧ numberIsNaN "yes" = true := by
  decide

theorem matchesEmail_samples :
    matchesEmail "a@b.c" = true ∧ matchesEmail "a@b" = false ∧ matchesEmail "a@.c" = false
      ∧ matchesEmail "a@b.c.d" = true ∧ matchesEmail "a b@c.d" = false
      ∧ matchesEmail "@b.c" = false ∧ matchesEmail "a@b." = false
      ∧ matchesEmail "a@b@c.d" = false := by
  decide

theorem matchesIpAddress_samples :
    matchesIpAddress "1.2.3.4" = true ∧ matchesIpAddress "999.1.1.1" = true
      ∧ matchesIpAddress "1.2.3" = false ∧ matchesIpAddress "1..2.3" = false
      ∧ matchesIpAddress "1.2.3.4." = false ∧ matchesIpAddress "1234.1.1.1" = false := by
  decide

theorem validateType_samples :
    validateType sampleHost (JsValue.string "TRUE") "Boolean" = Except.ok true
      ∧ validateType sampleHost (JsValue.string "yes") "boolean" = Except.ok false
      ∧ validateType sampleHost (JsValue.string "8080") "number" = Except.ok true
      ∧ validateType sampleHost (JsValue.string "abc") "number" = Except.ok false
      ∧ validateType sampleHost (JsValue.string "http://x.com") "url" = Except.ok true
      ∧ validateType sampleHost (JsValue.string "abc") "unknown" = Except.ok true
      ∧ validateType sampleHost (JsValue.builtin "toString") "string" = Except.ok false := by
  decide

/-- The two end-to-end scenarios of the specification. -/
theorem validateWithSchema_scenarios :
    validateWithSchema sampleHost
        [("PORT", "8080"), ("DEBUG", "true"), ("API_URL", "http://x.com")]
        [("PORT", { type := some "number", required := some true }),
         ("DEBUG", { type := some "boolean", required := some true }),
         ("API_URL", { type := some "url", required := some true })]
      = Except.ok ⟨true, [], []⟩
    ∧ validateWithSchema sampleHost [("PORT", "abc")]
        [("PORT", { type := some "number", required := some true })]
      = Except.ok ⟨false,
          [⟨"PORT", "Variable PORT should be of type number, got: abc"⟩], []⟩ := by
  decide

theorem inferSchemaForValue_samples :
    inferSchemaForValue "DB_PASSWORD" "s3cret"
        = { type := some "string", required := some true, sensitive := some true,
            description := some "Environment variable: DB_PASSWORD" }
      ∧ inferSchemaForValue "DEFAULT_PORT" "8080"
        = { type := some "number", required := some false, default := some "8080",
            description := some "Environment variable: DEFAULT_PORT" }
      ∧ inferSchemaForValue "DEBUG" "No"
        = { type := some "boolean", required := some true,
            enum := some ["true", "false", "0", "1", "yes", "no"],
            description := some "Environment variable: DEBUG" }
      ∧ (inferSchemaForValue "URL" "https://x.com").type = some "url"
      ∧ (inferSchemaForValue "MAIL" "a@b.c").type = some "email"
      ∧ (inferSchemaForValue "IP" "10.0.0.1").type = some "ipaddress"
      ∧ (inferSchemaForValue "EMPTY" "").type = some "number" := by
  decide

theorem generateExample_samples :
    generateExample [("HOST", "h"), ("API_KEY", "k")]
        (some [("MODE", { default := some "dev", enum := some ["a", "b"] }),
               ("LEVEL", { enum := some ["a", "b"], sensitive := some true }),
               ("PIN", { sensitive := some true }),
               ("HOST", {}), ("API_KEY", {}), ("OTHER", {})])
      = [("MODE", JsValue.string "dev"), ("LEVEL", JsValue.string "a"),
         ("PIN", JsValue.string "********"), ("HOST", JsValue.string "h"),
         ("API_KEY", JsValue.string "********"),
         ("OTHER", JsValue.string "YOUR_OTHER_HERE")]
    ∧ generateExample [] (some [("A", { default := some "", enum := some ["x"] })])
      = [("A", JsValue.string "x")]
    ∧ generateExample [] (some [("toString", {})])
      = [("toString", JsValue.builtin "toString")] := by
  decide

end CheckEnv
